import Mathlib

/-!
Verification of the RPM v3 package library (`src/rpm/rpm.rs`).

Shallow embedding conventions:
* Byte streams are `List Nat` (each element a byte value; writers only emit
  values `< 256`).
* Rust `String` values are modelled by their UTF-8 byte lists (`List Nat`);
  `String::from_utf8_lossy` is the identity on the valid UTF-8 produced by
  the writers, so parse results are compared as byte lists.
* Machine integers (`i8`/`i16`/`i32`/`i64`) are `Int` with explicit two's
  complement wrapping (`% 2^w`) at the points where the source casts or
  serializes; `u32`/`usize` are `Nat`, wrapped `% 2^32` where the source
  performs an `as u32` conversion or writes 4 bytes.
* Fallible operations (`nom` parsers, `read_exact`, `Result`) return
  `Option`; `none` also models the slice-index panics reachable in
  `IndexData` parsing (noted at each site).
-/

/-! ## Big-endian byte codec (models `to_be_bytes` / `nom::number::complete::be_*`) -/

/-- Big-endian byte encoding of `n` on `w` bytes (truncating like `as uN`). -/
def natToBE : Nat → Nat → List Nat
  | 0, _ => []
  | w + 1, n => natToBE w (n / 256) ++ [n % 256]

/-- Big-endian value of a byte list (models the `be_uN` combinators). -/
def bytesToNatBE (l : List Nat) : Nat :=
  l.foldl (fun a b => a * 256 + b) 0

/-- Two's complement reading of a `w`-byte unsigned value (models `be_iN`). -/
def toSigned (w : Nat) (n : Nat) : Int :=
  if n < 2 ^ (8 * w - 1) then (n : Int) else (n : Int) - 2 ^ (8 * w)

/-- Serialization of an `i32` (`to_be_bytes` of the two's complement). -/
def i32Bytes (x : Int) : List Nat :=
  natToBE 4 ((x % 4294967296).toNat)

/-- `usize as i32` conversion (wrapping, as in release builds). -/
def i32ofNat (n : Nat) : Int :=
  toSigned 4 (n % 4294967296)

/-- i32 wrapping of an integer-valued expression (release-mode overflow). -/
def i32wrap (x : Int) : Int :=
  toSigned 4 ((x % 4294967296).toNat)

/-- `read_exact` into a `k`-byte buffer: `some (buffer, rest)` or `none`. -/
def readBytes (k : Nat) (l : List Nat) : Option (List Nat × List Nat) :=
  if k ≤ l.length then some (l.take k, l.drop k) else none

/-- `be_u8`. -/
def readU8 (l : List Nat) : Option (Nat × List Nat) :=
  match l with
  | [] => none
  | b :: rest => some (b, rest)

/-- `be_u32`. -/
def readU32 (l : List Nat) : Option (Nat × List Nat) :=
  (readBytes 4 l).map (fun p => (bytesToNatBE p.1, p.2))

/-- `be_i32`. -/
def readI32 (l : List Nat) : Option (Int × List Nat) :=
  (readBytes 4 l).map (fun p => (toSigned 4 (bytesToNatBE p.1), p.2))

/-- `be_iN` for an element width of `w` bytes. -/
def readIntBE (w : Nat) (l : List Nat) : Option (Int × List Nat) :=
  (readBytes w l).map (fun p => (toSigned w (bytesToNatBE p.1), p.2))

theorem natToBE_length (w n : Nat) : (natToBE w n).length = w := by
  induction w generalizing n with
  | zero => rfl
  | succ w ih => simp [natToBE, ih]

theorem bytesToNatBE_append_one (l : List Nat) (b : Nat) :
    bytesToNatBE (l ++ [b]) = bytesToNatBE l * 256 + b := by
  simp [bytesToNatBE, List.foldl_append]

theorem bytesToNatBE_natToBE (w n : Nat) :
    bytesToNatBE (natToBE w n) = n % 2 ^ (8 * w) := by
  induction w generalizing n with
  | zero => simp [natToBE, bytesToNatBE, Nat.mod_one]
  | succ w ih =>
      rw [natToBE, bytesToNatBE_append_one, ih]
      have h : 2 ^ (8 * (w + 1)) = 256 * 2 ^ (8 * w) := by
        rw [Nat.mul_succ, Nat.pow_add]; ring
      rw [h, Nat.mod_mul]
      ring

theorem readBytes_append (a b : List Nat) (k : Nat) (h : a.length = k) :
    readBytes k (a ++ b) = some (a, b) := by
  subst h
  simp [readBytes, List.take_left, List.drop_left]

theorem readU32_natToBE (n : Nat) (rest : List Nat) (h : n < 4294967296) :
    readU32 (natToBE 4 n ++ rest) = some (n, rest) := by
  rw [readU32, readBytes_append _ _ _ (natToBE_length 4 n)]
  simp [bytesToNatBE_natToBE]
  omega

theorem i32Bytes_length (x : Int) : (i32Bytes x).length = 4 :=
  natToBE_length 4 _

theorem toSigned_four (n : Nat) :
    toSigned 4 n = if n < 2147483648 then (n : Int) else (n : Int) - 4294967296 := by
  rfl

theorem readI32_i32Bytes (x : Int) (rest : List Nat)
    (h1 : -2147483648 ≤ x) (h2 : x < 2147483648) :
    readI32 (i32Bytes x ++ rest) = some (x, rest) := by
  rw [readI32, i32Bytes, readBytes_append _ _ _ (natToBE_length 4 _)]
  have hx : (0:Int) ≤ x % 4294967296 := Int.emod_nonneg x (by norm_num)
  have hx2 : x % 4294967296 < 4294967296 := Int.emod_lt_of_pos x (by norm_num)
  have hmod : ((x % 4294967296).toNat : Int) = x % 4294967296 := Int.toNat_of_nonneg hx
  have hlt : (x % 4294967296).toNat < 2 ^ (8 * 4) := by
    have : ((x % 4294967296).toNat : Int) < 4294967296 := by rw [hmod]; exact hx2
    norm_num at this ⊢
    omega
  simp only [bytesToNatBE_natToBE, Nat.mod_eq_of_lt hlt, Option.map_some']
  rw [toSigned_four]
  refine congrArg (fun v => some (v, rest)) ?_
  split <;> omega

theorem i32ofNat_of_lt (n : Nat) (h : n < 2147483648) : i32ofNat n = (n : Int) := by
  rw [i32ofNat, Nat.mod_eq_of_lt (by omega), toSigned_four]
  simp [h]

theorem i32ofNat_nonneg_lt (n : Nat) (h : n < 2147483648) :
    -2147483648 ≤ i32ofNat n ∧ i32ofNat n < 2147483648 := by
  rw [i32ofNat_of_lt n h]
  omega

/-! ## `IndexData`: the nine RPM value kinds (`enum IndexData` in the source) -/

inductive IndexData : Type where
  | Null : IndexData
  | Char : List Nat → IndexData
  | Int8 : List Int → IndexData
  | Int16 : List Int → IndexData
  | Int32 : List Int → IndexData
  | Int64 : List Int → IndexData
  | StringTag : List Nat → IndexData
  | Bin : List Nat → IndexData
  | StringArray : List (List Nat) → IndexData
  | I18NString : List (List Nat) → IndexData
deriving DecidableEq

/-- `IndexData::num_items` (list lengths; `StringTag` counts as 1). -/
def IndexData.num_items : IndexData → Nat
  | .Null => 0
  | .Char d => d.length
  | .Int8 d => d.length
  | .Int16 d => d.length
  | .Int32 d => d.length
  | .Int64 d => d.length
  | .StringTag _ => 1
  | .Bin d => d.length
  | .StringArray d => d.length
  | .I18NString d => d.length

/-- `IndexData::to_u32` (the on-wire type code). -/
def IndexData.to_u32 : IndexData → Nat
  | .Null => 0
  | .Char _ => 1
  | .Int8 _ => 2
  | .Int16 _ => 3
  | .Int32 _ => 4
  | .Int64 _ => 5
  | .StringTag _ => 6
  | .Bin _ => 7
  | .StringArray _ => 8
  | .I18NString _ => 9

/-- `IndexData::from_u32` (empty placeholder of the decoded kind). -/
def IndexData.from_u32 : Nat → Option IndexData
  | 0 => some .Null
  | 1 => some (.Char [])
  | 2 => some (.Int8 [])
  | 3 => some (.Int16 [])
  | 4 => some (.Int32 [])
  | 5 => some (.Int64 [])
  | 6 => some (.StringTag [])
  | 7 => some (.Bin [])
  | 8 => some (.StringArray [])
  | 9 => some (.I18NString [])
  | _ => none

/-- The empty placeholder of the same kind as `d` (what `from_u32 d.to_u32` yields). -/
def IndexData.placeholder : IndexData → IndexData
  | .Null => .Null
  | .Char _ => .Char []
  | .Int8 _ => .Int8 []
  | .Int16 _ => .Int16 []
  | .Int32 _ => .Int32 []
  | .Int64 _ => .Int64 []
  | .StringTag _ => .StringTag []
  | .Bin _ => .Bin []
  | .StringArray _ => .StringArray []
  | .I18NString _ => .I18NString []

/-- The bytes `IndexData::append` pushes after any alignment padding:
integers as big-endian two's complement, strings NUL-terminated. -/
def IndexData.dataBytes : IndexData → List Nat
  | .Null => []
  | .Char d => d
  | .Int8 d => d.map (fun i => (i % 256).toNat)
  | .Int16 d => (d.map (fun i => natToBE 2 ((i % 65536).toNat))).flatten
  | .Int32 d => (d.map (fun i => natToBE 4 ((i % 4294967296).toNat))).flatten
  | .Int64 d => (d.map (fun i => natToBE 8 ((i % 18446744073709551616).toNat))).flatten
  | .StringTag s => s ++ [0]
  | .Bin d => d
  | .StringArray ss => (ss.map (fun s => s ++ [0])).flatten
  | .I18NString ss => (ss.map (fun s => s ++ [0])).flatten

/-- Zero bytes pushed by `IndexData::append` before the value to align the
store (2/4/8 for the int kinds, source lines 1021-1058; 0 otherwise). -/
def IndexData.alignPad : IndexData → Nat → Nat
  | .Int16 _, len => (2 - len % 2) % 2
  | .Int32 _, len => (4 - len % 4) % 4
  | .Int64 _, len => (8 - len % 8) % 8
  | _, _ => 0

/-- Alignment divisor of a value kind (2/4/8 for int kinds, else 1). -/
def IndexData.alignOf : IndexData → Nat
  | .Int16 _ => 2
  | .Int32 _ => 4
  | .Int64 _ => 8
  | _ => 1

/-- `IndexData::append`: pad the store, push the value bytes, return the new
store and the number of padding bytes (the source's returned `alignment`). -/
def IndexData.append (d : IndexData) (store : List Nat) : List Nat × Nat :=
  let pad := d.alignPad store.length
  (store ++ List.replicate pad 0 ++ d.dataBytes, pad)

/-! ### Entry-data readers (the store-filling loop of `Header::parse`) -/

/-- `parse_entry_data_number` with `be_u8` (`Char` and `Bin` entries). -/
def readU8List : Nat → List Nat → Option (List Nat)
  | 0, _ => some []
  | _ + 1, [] => none
  | n + 1, b :: rest => (readU8List n rest).map (fun l => b :: l)

/-- `parse_entry_data_number` with `be_iN` for `w`-byte elements. -/
def readIntList (w : Nat) : Nat → List Nat → Option (List Int)
  | 0, _ => some []
  | n + 1, l =>
      match readIntBE w l with
      | none => none
      | some (x, rest) =>
          match readIntList w n rest with
          | none => none
          | some xs => some (x :: xs)

/-- The `StringArray` filling loop: `take_till 0`, then skip the NUL via
`&rest[1..]` (which panics, hence `none`, if no byte remains). -/
def readStringArray : Nat → List Nat → Option (List (List Nat))
  | 0, _ => some []
  | n + 1, rem =>
      let s := rem.takeWhile (fun b => b ≠ 0)
      match rem.dropWhile (fun b => b ≠ 0) with
      | [] => none
      | _ :: rest =>
          match readStringArray n rest with
          | none => none
          | some ss => some (s :: ss)

/-- The `I18NString` filling loop: `take_till 0` but the position is NOT
advanced past the NUL (`remaining = rest` keeps the terminator). -/
def readI18N : Nat → List Nat → List (List Nat)
  | 0, _ => []
  | n + 1, rem =>
      rem.takeWhile (fun b => b ≠ 0) :: readI18N n (rem.dropWhile (fun b => b ≠ 0))

/-- The per-entry store-filling step of `Header::parse` (lines 262-306):
given the placeholder kind, the entry count and `store[offset..]`. -/
def parseEntryData : IndexData → Nat → List Nat → Option IndexData
  | .Null, _, _ => some .Null
  | .Char _, n, rem => (readU8List n rem).map .Char
  | .Int8 _, n, rem => (readIntList 1 n rem).map .Int8
  | .Int16 _, n, rem => (readIntList 2 n rem).map .Int16
  | .Int32 _, n, rem => (readIntList 4 n rem).map .Int32
  | .Int64 _, n, rem => (readIntList 8 n rem).map .Int64
  | .StringTag _, _, rem => some (.StringTag (rem.takeWhile (fun b => b ≠ 0)))
  | .Bin _, n, rem => (readU8List n rem).map .Bin
  | .StringArray _, n, rem => (readStringArray n rem).map .StringArray
  | .I18NString _, n, rem => some (.I18NString (readI18N n rem))

/-- What the store-filling loop reconstructs from data written by
`IndexData::append`: identical except that in an `I18NString` every element
after the first comes back empty (the NUL is never skipped). -/
def IndexData.reparsed : IndexData → IndexData
  | .I18NString [] => .I18NString []
  | .I18NString (s :: rest) => .I18NString (s :: rest.map (fun _ => []))
  | d => d

/-- Well-formedness inherited from the Rust types: integer elements fit
their machine width, string elements are NUL-free. -/
def IndexData.wf : IndexData → Prop
  | .Int8 d => ∀ x ∈ d, -128 ≤ x ∧ x < 128
  | .Int16 d => ∀ x ∈ d, -32768 ≤ x ∧ x < 32768
  | .Int32 d => ∀ x ∈ d, -2147483648 ≤ x ∧ x < 2147483648
  | .Int64 d => ∀ x ∈ d, -9223372036854775808 ≤ x ∧ x < 9223372036854775808
  | .StringTag s => 0 ∉ s
  | .StringArray ss => ∀ s ∈ ss, 0 ∉ s
  | .I18NString ss => ∀ s ∈ ss, 0 ∉ s
  | _ => True

instance : ∀ d : IndexData, Decidable d.wf := by
  intro d
  cases d <;> simp [IndexData.wf] <;> infer_instance

/-! ### Round-trip of entry data through the store -/

theorem readU8List_append (d extra : List Nat) :
    readU8List d.length (d ++ extra) = some d := by
  induction d with
  | nil => rfl
  | cons b rest ih => simp [readU8List, ih]

theorem readIntBE_natToBE (w m : Nat) (rest : List Nat) :
    readIntBE w (natToBE w m ++ rest) = some (toSigned w (m % 2 ^ (8 * w)), rest) := by
  rw [readIntBE, readBytes_append _ _ _ (natToBE_length w m)]
  simp [bytesToNatBE_natToBE]

theorem toSigned_wrap1 (i : Int) (h1 : -128 ≤ i) (h2 : i < 128) :
    toSigned 1 ((i % 256).toNat) = i := by
  have h0 : (0:Int) ≤ i % 256 := Int.emod_nonneg _ (by norm_num)
  have hc : ((i % 256).toNat : Int) = i % 256 := Int.toNat_of_nonneg h0
  rw [toSigned]
  norm_num
  split <;> omega

theorem toSigned_wrap2 (i : Int) (h1 : -32768 ≤ i) (h2 : i < 32768) :
    toSigned 2 ((i % 65536).toNat) = i := by
  have h0 : (0:Int) ≤ i % 65536 := Int.emod_nonneg _ (by norm_num)
  have hc : ((i % 65536).toNat : Int) = i % 65536 := Int.toNat_of_nonneg h0
  rw [toSigned]
  norm_num
  split <;> omega

theorem toSigned_wrap4 (i : Int) (h1 : -2147483648 ≤ i) (h2 : i < 2147483648) :
    toSigned 4 ((i % 4294967296).toNat) = i := by
  have h0 : (0:Int) ≤ i % 4294967296 := Int.emod_nonneg _ (by norm_num)
  have hc : ((i % 4294967296).toNat : Int) = i % 4294967296 := Int.toNat_of_nonneg h0
  rw [toSigned]
  norm_num
  split <;> omega

theorem toSigned_wrap8 (i : Int)
    (h1 : -9223372036854775808 ≤ i) (h2 : i < 9223372036854775808) :
    toSigned 8 ((i % 18446744073709551616).toNat) = i := by
  have h0 : (0:Int) ≤ i % 18446744073709551616 := Int.emod_nonneg _ (by norm_num)
  have hc : ((i % 18446744073709551616).toNat : Int) = i % 18446744073709551616 :=
    Int.toNat_of_nonneg h0
  rw [toSigned]
  norm_num
  split <;> omega

theorem readIntList_flatten (w : Nat) (enc : Int → List Nat) (d : List Int)
    (extra : List Nat)
    (hitem : ∀ i ∈ d, ∀ rest, readIntBE w (enc i ++ rest) = some (i, rest)) :
    readIntList w d.length ((d.map enc).flatten ++ extra) = some d := by
  induction d with
  | nil => rfl
  | cons a rest ih =>
      have ha := hitem a (by simp) ((rest.map enc).flatten ++ extra)
      simp only [List.length_cons, List.map_cons, List.flatten_cons, List.append_assoc,
        readIntList, ha, ih (fun i hi r => hitem i (by simp [hi]) r)]

theorem takeWhile_append_nul (s extra : List Nat) (h : 0 ∉ s) :
    (s ++ 0 :: extra).takeWhile (fun b => b ≠ 0) = s := by
  induction s with
  | nil => simp
  | cons a rest ih =>
      have ha : a ≠ 0 := fun hh => h (by simp [hh])
      rw [List.cons_append, List.takeWhile_cons_of_pos (by simpa using ha),
        ih (fun hh => h (by simp [hh]))]

theorem dropWhile_append_nul (s extra : List Nat) (h : 0 ∉ s) :
    (s ++ 0 :: extra).dropWhile (fun b => b ≠ 0) = 0 :: extra := by
  induction s with
  | nil => simp
  | cons a rest ih =>
      have ha : a ≠ 0 := fun hh => h (by simp [hh])
      rw [List.cons_append, List.dropWhile_cons_of_pos (by simpa using ha),
        ih (fun hh => h (by simp [hh]))]

theorem readStringArray_flatten (ss : List (List Nat)) (extra : List Nat)
    (h : ∀ s ∈ ss, 0 ∉ s) :
    readStringArray ss.length ((ss.map (fun s => s ++ [0])).flatten ++ extra) = some ss := by
  induction ss with
  | nil => rfl
  | cons s rest ih =>
      have hs : 0 ∉ s := h s (by simp)
      rw [List.length_cons, List.map_cons, List.flatten_cons, readStringArray]
      have harr : s ++ [0] ++ ((rest.map (fun s => s ++ [0])).flatten ++ extra)
          = s ++ 0 :: ((rest.map (fun s => s ++ [0])).flatten ++ extra) := by
        simp
      rw [List.append_assoc, harr, takeWhile_append_nul _ _ hs, dropWhile_append_nul _ _ hs]
      simp [ih (fun x hx => h x (by simp [hx]))]

theorem readI18N_zero_head (n : Nat) (x : List Nat) :
    readI18N n (0 :: x) = List.replicate n [] := by
  induction n with
  | zero => rfl
  | succ n ih => simp [readI18N, List.takeWhile, List.dropWhile, ih, List.replicate]

theorem readI18N_flatten (ss : List (List Nat)) (extra : List Nat)
    (h : ∀ s ∈ ss, 0 ∉ s) :
    readI18N ss.length ((ss.map (fun s => s ++ [0])).flatten ++ extra)
      = match ss with
        | [] => []
        | s :: rest => s :: rest.map (fun _ => []) := by
  cases ss with
  | nil => rfl
  | cons s rest =>
      have hs : 0 ∉ s := h s (by simp)
      rw [List.length_cons, List.map_cons, List.flatten_cons, readI18N]
      have harr : s ++ [0] ++ ((rest.map (fun s => s ++ [0])).flatten ++ extra)
          = s ++ 0 :: ((rest.map (fun s => s ++ [0])).flatten ++ extra) := by
        simp
      rw [List.append_assoc, harr, takeWhile_append_nul _ _ hs, dropWhile_append_nul _ _ hs,
        readI18N_zero_head]
      simp [List.map_const']

theorem parseEntryData_dataBytes (d : IndexData) (extra : List Nat) (h : d.wf) :
    parseEntryData d.placeholder d.num_items (d.dataBytes ++ extra) = some d.reparsed := by
  cases d with
  | Null => rfl
  | Char l =>
      simp [IndexData.placeholder, IndexData.num_items, IndexData.dataBytes,
        parseEntryData, IndexData.reparsed, readU8List_append]
  | Int8 l =>
      have hflat : readIntList 1 l.length
          ((l.map (fun i => natToBE 1 ((i % 256).toNat))).flatten ++ extra) = some l := by
        refine readIntList_flatten 1 _ l extra (fun i hi rest => ?_)
        have hr := h i hi
        rw [readIntBE_natToBE]
        have hlt : ((i % 256).toNat) < 2 ^ (8 * 1) := by
          have h0 : (0:Int) ≤ i % 256 := Int.emod_nonneg _ (by norm_num)
          have h2 : i % 256 < 256 := Int.emod_lt_of_pos _ (by norm_num)
          omega
        rw [Nat.mod_eq_of_lt hlt, toSigned_wrap1 i hr.1 hr.2]
      simp only [IndexData.placeholder, IndexData.num_items, IndexData.dataBytes,
        parseEntryData, IndexData.reparsed]
      have hmap : ∀ m : List Int, m.map (fun i => (i % 256).toNat)
          = (m.map (fun i => natToBE 1 ((i % 256).toNat))).flatten := by
        intro m
        induction m with
        | nil => rfl
        | cons a r ihl =>
            have h0 : (0:Int) ≤ a % 256 := Int.emod_nonneg _ (by norm_num)
            have h2 : a % 256 < 256 := Int.emod_lt_of_pos _ (by norm_num)
            have hm : (a % 256).toNat % 256 = (a % 256).toNat := Nat.mod_eq_of_lt (by omega)
            simp [natToBE, ihl, hm]
      rw [hmap, hflat]
      rfl
  | Int16 l =>
      have hlist : readIntList 2 l.length
          ((l.map (fun i => natToBE 2 ((i % 65536).toNat))).flatten ++ extra) = some l := by
        refine readIntList_flatten 2 _ l extra (fun i hi rest => ?_)
        have hr := h i hi
        rw [readIntBE_natToBE]
        have hlt : ((i % 65536).toNat) < 2 ^ (8 * 2) := by
          have h0 : (0:Int) ≤ i % 65536 := Int.emod_nonneg _ (by norm_num)
          have h2 : i % 65536 < 65536 := Int.emod_lt_of_pos _ (by norm_num)
          omega
        rw [Nat.mod_eq_of_lt hlt, toSigned_wrap2 i hr.1 hr.2]
      simp only [IndexData.placeholder, IndexData.num_items, IndexData.dataBytes,
        parseEntryData, IndexData.reparsed]
      rw [hlist]
      rfl
  | Int32 l =>
      have hlist : readIntList 4 l.length
          ((l.map (fun i => natToBE 4 ((i % 4294967296).toNat))).flatten ++ extra) = some l := by
        refine readIntList_flatten 4 _ l extra (fun i hi rest => ?_)
        have hr := h i hi
        rw [readIntBE_natToBE]
        have hlt : ((i % 4294967296).toNat) < 2 ^ (8 * 4) := by
          have h0 : (0:Int) ≤ i % 4294967296 := Int.emod_nonneg _ (by norm_num)
          have h2 : i % 4294967296 < 4294967296 := Int.emod_lt_of_pos _ (by norm_num)
          omega
        rw [Nat.mod_eq_of_lt hlt, toSigned_wrap4 i hr.1 hr.2]
      simp only [IndexData.placeholder, IndexData.num_items, IndexData.dataBytes,
        parseEntryData, IndexData.reparsed]
      rw [hlist]
      rfl
  | Int64 l =>
      have hlist : readIntList 8 l.length
          ((l.map (fun i => natToBE 8 ((i % 18446744073709551616).toNat))).flatten ++ extra)
          = some l := by
        refine readIntList_flatten 8 _ l extra (fun i hi rest => ?_)
        have hr := h i hi
        rw [readIntBE_natToBE]
        have hlt : ((i % 18446744073709551616).toNat) < 2 ^ (8 * 8) := by
          have h0 : (0:Int) ≤ i % 18446744073709551616 := Int.emod_nonneg _ (by norm_num)
          have h2 : i % 18446744073709551616 < 18446744073709551616 :=
            Int.emod_lt_of_pos _ (by norm_num)
          omega
        rw [Nat.mod_eq_of_lt hlt, toSigned_wrap8 i hr.1 hr.2]
      simp only [IndexData.placeholder, IndexData.num_items, IndexData.dataBytes,
        parseEntryData, IndexData.reparsed]
      rw [hlist]
      rfl
  | StringTag s =>
      simp only [IndexData.placeholder, IndexData.num_items, IndexData.dataBytes,
        parseEntryData, IndexData.reparsed]
      have harr : s ++ [0] ++ extra = s ++ 0 :: extra := by simp
      rw [harr, takeWhile_append_nul _ _ h]
  | Bin l =>
      simp [IndexData.placeholder, IndexData.num_items, IndexData.dataBytes,
        parseEntryData, IndexData.reparsed, readU8List_append]
  | StringArray ss =>
      simp only [IndexData.placeholder, IndexData.num_items, IndexData.dataBytes,
        parseEntryData, IndexData.reparsed]
      rw [readStringArray_flatten ss extra h]
      rfl
  | I18NString ss =>
      simp only [IndexData.placeholder, IndexData.num_items, IndexData.dataBytes,
        parseEntryData]
      rw [readI18N_flatten ss extra h]
      cases ss <;> rfl

theorem num_items_le_dataBytes (d : IndexData) :
    d.num_items ≤ d.dataBytes.length := by
  cases d with
  | Null => simp [IndexData.num_items, IndexData.dataBytes]
  | Char l => simp [IndexData.num_items, IndexData.dataBytes]
  | Int8 l => simp [IndexData.num_items, IndexData.dataBytes]
  | Int16 l =>
      simp only [IndexData.num_items, IndexData.dataBytes]
      induction l with
      | nil => simp
      | cons a r ih => simp [natToBE_length] at ih ⊢; omega
  | Int32 l =>
      simp only [IndexData.num_items, IndexData.dataBytes]
      induction l with
      | nil => simp
      | cons a r ih => simp [natToBE_length] at ih ⊢; omega
  | Int64 l =>
      simp only [IndexData.num_items, IndexData.dataBytes]
      induction l with
      | nil => simp
      | cons a r ih => simp [natToBE_length] at ih ⊢; omega
  | StringTag s => simp [IndexData.num_items, IndexData.dataBytes]
  | Bin l => simp [IndexData.num_items, IndexData.dataBytes]
  | StringArray ss =>
      simp only [IndexData.num_items, IndexData.dataBytes]
      induction ss with
      | nil => simp
      | cons a r ih => simp at ih ⊢; omega
  | I18NString ss =>
      simp only [IndexData.num_items, IndexData.dataBytes]
      induction ss with
      | nil => simp
      | cons a r ih => simp at ih ⊢; omega

/-! ## `IndexEntry`, `IndexHeader`, `Header` -/

/-- `struct IndexEntry<T>`: tag, typed data, i32 store offset, u32 count. -/
structure IndexEntry (α : Type) where
  tag : α
  data : IndexData
  offset : Int
  num_items : Nat
deriving DecidableEq

/-- `IndexEntry::new` (count derived from the data). -/
def IndexEntry.new {α : Type} (tag : α) (offset : Int) (data : IndexData) :
    IndexEntry α :=
  { tag := tag, data := data, offset := offset, num_items := data.num_items }

/-- `IndexEntry::write_index`: 16 bytes — tag, type code, offset, count (BE). -/
def IndexEntry.write_index {α : Type} (toU32 : α → Nat) (e : IndexEntry α) : List Nat :=
  natToBE 4 (toU32 e.tag) ++ natToBE 4 e.data.to_u32 ++ i32Bytes e.offset
    ++ natToBE 4 e.num_items

/-- `IndexEntry::parse`: one 16-byte descriptor off the entry table; the data
is only a placeholder until the store is read. -/
def IndexEntry.parse {α : Type} (fromU32 : Nat → Option α) (input : List Nat) :
    Option (List Nat × IndexEntry α) :=
  match readU32 input with
  | none => none
  | some (raw_tag, i1) =>
      match fromU32 raw_tag with
      | none => none
      | some tag =>
          match readU32 i1 with
          | none => none
          | some (raw_type, i2) =>
              match IndexData.from_u32 raw_type with
              | none => none
              | some data =>
                  match readI32 i2 with
                  | none => none
                  | some (offset, i3) =>
                      match readU32 i3 with
                      | none => none
                      | some (cnt, rest) =>
                          some (rest, { tag := tag, data := data,
                                        offset := offset, num_items := cnt })

/-- `struct IndexHeader`: 3-byte magic, version, entry count, store size. -/
structure IndexHeader where
  magic : List Nat
  version : Nat
  num_entries : Nat
  header_size : Nat
deriving DecidableEq

/-- The 3-byte header magic `8E AD E8`. -/
def HEADER_MAGIC : List Nat := [142, 173, 232]

/-- `IndexHeader::new`. -/
def IndexHeader.new (num_entries header_size : Nat) : IndexHeader :=
  { magic := HEADER_MAGIC, version := 1,
    num_entries := num_entries, header_size := header_size }

/-- `IndexHeader::write`: magic, version, 4 reserved zero bytes, counts (BE). -/
def IndexHeader.write (ih : IndexHeader) : List Nat :=
  ih.magic ++ [ih.version % 256] ++ [0, 0, 0, 0]
    ++ natToBE 4 ih.num_entries ++ natToBE 4 ih.header_size

/-- `IndexHeader::parse` on a 16-byte buffer.  The source checks only magic
bytes 0 and 1 (`for i in 0..2`), then the version, skips 4 reserved bytes and
reads two BE u32 fields; any shorter input fails in a reader.  The match arm
is the composition of those `take`/`be_u8`/`be_u32` readers. -/
def IndexHeader.parse (input : List Nat) : Option IndexHeader :=
  match input with
  | m0 :: m1 :: m2 :: version :: _r0 :: _r1 :: _r2 :: _r3 ::
      n0 :: n1 :: n2 :: n3 :: s0 :: s1 :: s2 :: s3 :: _rest =>
      if m0 ≠ 142 then none
      else if m1 ≠ 173 then none
      else if version ≠ 1 then none
      else some { magic := [m0, m1, m2], version := 1,
                  num_entries := bytesToNatBE [n0, n1, n2, n3],
                  header_size := bytesToNatBE [s0, s1, s2, s3] }
  | _ => none

/-- `struct Header<T>`. -/
structure Header (α : Type) where
  index_header : IndexHeader
  index_entries : List (IndexEntry α)
  store : List Nat
deriving DecidableEq

/-- `Header::write`: index header, 16-byte descriptors in order, store. -/
def Header.write {α : Type} (toU32 : α → Nat) (h : Header α) : List Nat :=
  h.index_header.write ++ (h.index_entries.map (IndexEntry.write_index toU32)).flatten
    ++ h.store

/-- The entry-table loop of `Header::parse` (`num_entries` descriptors, the
remainder of the buffer being the store). -/
def parseEntries {α : Type} (fromU32 : Nat → Option α) :
    Nat → List Nat → Option (List (IndexEntry α) × List Nat)
  | 0, bytes => some ([], bytes)
  | n + 1, bytes =>
      match IndexEntry.parse fromU32 bytes with
      | none => none
      | some (rest, e) =>
          match parseEntries fromU32 n rest with
          | none => none
          | some (es, st) => some (e :: es, st)

/-- The store-filling step for one entry (`&bytes[entry.offset as usize..]`
panics for a negative offset or one past the store, hence `none`). -/
def fillEntry {α : Type} (store : List Nat) (e : IndexEntry α) :
    Option (IndexEntry α) :=
  if e.offset < 0 then none
  else if store.length < e.offset.toNat then none
  else
    match parseEntryData e.data e.num_items (store.drop e.offset.toNat) with
    | none => none
    | some d => some { e with data := d }

/-- The store-filling loop over all entries. -/
def fillEntries {α : Type} (store : List Nat) :
    List (IndexEntry α) → Option (List (IndexEntry α))
  | [] => some []
  | e :: es =>
      match fillEntry store e with
      | none => none
      | some e' =>
          match fillEntries store es with
          | none => none
          | some es' => some (e' :: es')

/-- `Header::parse`: 16-byte index header, then a buffer of
`header_size + num_entries * 16` bytes (u32 arithmetic) split into the entry
table and the store, then the store-filling loop. -/
def Header.parse {α : Type} (fromU32 : Nat → Option α) (input : List Nat) :
    Option (Header α × List Nat) :=
  match readBytes 16 input with
  | none => none
  | some (buf, rest1) =>
      match IndexHeader.parse buf with
      | none => none
      | some ih =>
          match readBytes ((ih.header_size + ih.num_entries * 16) % 4294967296) rest1 with
          | none => none
          | some (body, rest2) =>
              match parseEntries fromU32 ih.num_entries body with
              | none => none
              | some (entries, storeBytes) =>
                  match fillEntries storeBytes entries with
                  | none => none
                  | some entries' =>
                      some ({ index_header := ih, index_entries := entries',
                              store := storeBytes }, rest2)

/-- `Header::find_entry`: first entry with the given tag. -/
def Header.find_entry {α : Type} [DecidableEq α] (h : Header α) (tag : α) :
    Option (IndexEntry α) :=
  h.index_entries.find? (fun e => decide (e.tag = tag))

/-- `Header::create_region_tag`: a `Bin` entry whose 16-byte payload is the
serialized descriptor `(tag, Bin, (records_count + 1) * -16, 16)`. -/
def Header.create_region_tag {α : Type} (toU32 : α → Nat) (tag : α)
    (records_count : Int) (offset : Int) : IndexEntry α :=
  let inner : IndexEntry α :=
    { tag := tag, data := .Bin [], offset := i32wrap ((records_count + 1) * (-16)),
      num_items := 16 }
  IndexEntry.new tag offset (.Bin (inner.write_index toU32))

/-- The store-building loop of `Header::from_entries`: offsets are recorded as
`store.len() as i32` plus the alignment returned by `IndexData::append`. -/
def from_entriesAux {α : Type} :
    List (IndexEntry α) → List Nat → List (IndexEntry α) × List Nat
  | [], store => ([], store)
  | r :: rs, store =>
      let pad := r.data.alignPad store.length
      let store' := store ++ List.replicate pad 0 ++ r.data.dataBytes
      ({ r with offset := i32ofNat (store.length + pad) } :: (from_entriesAux rs store').1,
       (from_entriesAux rs store').2)

/-- `Header::from_entries`: build the store, append the region tag's 16-byte
payload, prepend the region entry, record the counts. -/
def Header.from_entries {α : Type} (toU32 : α → Nat)
    (actual_records : List (IndexEntry α)) (region_tag : α) : Header α :=
  let es := (from_entriesAux actual_records []).1
  let store0 := (from_entriesAux actual_records []).2
  let region := Header.create_region_tag toU32 region_tag
    (i32ofNat actual_records.length) (i32ofNat store0.length)
  let store := store0 ++ region.data.dataBytes
  { index_header := IndexHeader.new (actual_records.length + 1) store.length
    index_entries := region :: es
    store := store }

/-! ## Invariants of `Header::from_entries` -/

theorem alignPad_aligned (d : IndexData) (len : Nat) :
    (len + d.alignPad len) % d.alignOf = 0 := by
  cases d <;> simp [IndexData.alignPad, IndexData.alignOf] <;> omega

theorem from_entriesAux_snd {α : Type} (rs : List (IndexEntry α)) (store : List Nat) :
    ∃ t, (from_entriesAux rs store).2 = store ++ t := by
  induction rs generalizing store with
  | nil => exact ⟨[], by simp [from_entriesAux]⟩
  | cons r rs ih =>
      obtain ⟨t, ht⟩ := ih (store ++ List.replicate (r.data.alignPad store.length) 0
        ++ r.data.dataBytes)
      exact ⟨List.replicate (r.data.alignPad store.length) 0 ++ r.data.dataBytes ++ t, by
        simp only [from_entriesAux, ht]; simp⟩

theorem from_entriesAux_shape {α : Type} (rs : List (IndexEntry α)) (store : List Nat) :
    ((from_entriesAux rs store).1).map (fun e => (e.tag, e.data, e.num_items))
      = rs.map (fun r => (r.tag, r.data, r.num_items)) := by
  induction rs generalizing store with
  | nil => rfl
  | cons r rs ih => simp only [from_entriesAux, List.map_cons, ih]

theorem from_entriesAux_entries {α : Type} (rs : List (IndexEntry α)) (store : List Nat) :
    ∀ e ∈ (from_entriesAux rs store).1, ∃ m t,
      e.offset = i32ofNat m ∧
      m % e.data.alignOf = 0 ∧
      m ≤ (from_entriesAux rs store).2.length ∧
      (from_entriesAux rs store).2.drop m = e.data.dataBytes ++ t := by
  induction rs generalizing store with
  | nil => intro e he; simp [from_entriesAux] at he
  | cons r rs ih =>
      have hstep : from_entriesAux (r :: rs) store
          = ({ r with offset := i32ofNat (store.length + r.data.alignPad store.length) }
              :: (from_entriesAux rs (store ++ List.replicate (r.data.alignPad store.length) 0
                    ++ r.data.dataBytes)).1,
             (from_entriesAux rs (store ++ List.replicate (r.data.alignPad store.length) 0
                    ++ r.data.dataBytes)).2) := rfl
      rw [hstep]
      intro e he
      simp only [List.mem_cons] at he
      set pad := r.data.alignPad store.length with hpad
      set store' := store ++ List.replicate pad 0 ++ r.data.dataBytes with hstore'
      rcases he with he | he
      · subst he
        obtain ⟨t1, ht1⟩ := from_entriesAux_snd rs store'
        refine ⟨store.length + pad, t1, rfl, ?_, ?_, ?_⟩
        · exact alignPad_aligned r.data store.length
        · rw [ht1]
          simp only [hstore', List.length_append, List.length_replicate]
          omega
        · rw [ht1]
          have hfront : (store ++ List.replicate pad 0).length = store.length + pad := by
            simp
          have hsplit : store' ++ t1
              = (store ++ List.replicate pad 0) ++ (r.data.dataBytes ++ t1) := by
            simp [hstore']
          rw [hsplit, ← hfront, List.drop_left]
      · exact ih store' e he

theorem IndexEntry.write_index_length {α : Type} (toU32 : α → Nat) (e : IndexEntry α) :
    (e.write_index toU32).length = 16 := by
  simp [IndexEntry.write_index, natToBE_length, i32Bytes_length]

theorem from_entries_store_eq {α : Type} (toU32 : α → Nat)
    (records : List (IndexEntry α)) (rt : α) :
    (Header.from_entries toU32 records rt).store
      = (from_entriesAux records []).2
        ++ (Header.create_region_tag toU32 rt (i32ofNat records.length)
              (i32ofNat (from_entriesAux records []).2.length)).data.dataBytes := rfl

theorem from_entries_entries {α : Type} (toU32 : α → Nat)
    (records : List (IndexEntry α)) (rt : α) :
    ∀ e ∈ (Header.from_entries toU32 records rt).index_entries, ∃ m t,
      e.offset = i32ofNat m ∧
      m % e.data.alignOf = 0 ∧
      m ≤ (Header.from_entries toU32 records rt).store.length ∧
      (Header.from_entries toU32 records rt).store.drop m = e.data.dataBytes ++ t := by
  intro e he
  simp only [Header.from_entries, List.mem_cons] at he
  rcases he with he | he
  · subst he
    refine ⟨(from_entriesAux records []).2.length, [], rfl, ?_, ?_, ?_⟩
    · exact Nat.mod_one _
    · show (from_entriesAux records []).2.length
        ≤ ((from_entriesAux records []).2
            ++ (Header.create_region_tag toU32 rt (i32ofNat records.length)
                  (i32ofNat (from_entriesAux records []).2.length)).data.dataBytes).length
      simp
    · show ((from_entriesAux records []).2
            ++ (Header.create_region_tag toU32 rt (i32ofNat records.length)
                  (i32ofNat (from_entriesAux records []).2.length)).data.dataBytes).drop
          (from_entriesAux records []).2.length = _ ++ []
      rw [List.drop_left]
      simp
  · obtain ⟨m, t, h1, h2, h3, h4⟩ := from_entriesAux_entries records [] e he
    refine ⟨m, t ++ (Header.create_region_tag toU32 rt (i32ofNat records.length)
      (i32ofNat (from_entriesAux records []).2.length)).data.dataBytes, h1, h2, ?_, ?_⟩
    · show m ≤ ((from_entriesAux records []).2
          ++ (Header.create_region_tag toU32 rt (i32ofNat records.length)
                (i32ofNat (from_entriesAux records []).2.length)).data.dataBytes).length
      simp only [List.length_append]
      omega
    · show ((from_entriesAux records []).2
          ++ (Header.create_region_tag toU32 rt (i32ofNat records.length)
                (i32ofNat (from_entriesAux records []).2.length)).data.dataBytes).drop m
        = e.data.dataBytes ++ (t ++ _)
      rw [List.drop_append_of_le_length h3, h4]
      simp

theorem mem_of_map_shape {α : Type} {l1 l2 : List (IndexEntry α)}
    (h : l1.map (fun e => (e.tag, e.data, e.num_items))
       = l2.map (fun e => (e.tag, e.data, e.num_items))) :
    ∀ e ∈ l1, ∃ r ∈ l2, e.tag = r.tag ∧ e.data = r.data ∧ e.num_items = r.num_items := by
  induction l1 generalizing l2 with
  | nil => intro e he; simp at he
  | cons a l1 ih =>
      cases l2 with
      | nil => simp at h
      | cons b l2 =>
          simp only [List.map_cons, List.cons.injEq, Prod.mk.injEq] at h
          intro e he
          rcases List.mem_cons.mp he with he | he
          · subst he
            exact ⟨b, by simp, h.1.1, h.1.2.1, h.1.2.2⟩
          · obtain ⟨r, hr, hfacts⟩ := ih h.2 e he
            exact ⟨r, by simp [hr], hfacts⟩

theorem from_entries_mem {α : Type} (toU32 : α → Nat)
    (records : List (IndexEntry α)) (rt : α) :
    ∀ e ∈ (Header.from_entries toU32 records rt).index_entries,
      (e.tag = rt ∧ (∃ bytes, e.data = .Bin bytes ∧ bytes.length = 16) ∧ e.num_items = 16)
      ∨ ∃ r ∈ records, e.tag = r.tag ∧ e.data = r.data ∧ e.num_items = r.num_items := by
  intro e he
  simp only [Header.from_entries, List.mem_cons] at he
  rcases he with he | he
  · subst he
    left
    refine ⟨rfl, ⟨_, rfl, IndexEntry.write_index_length _ _⟩, ?_⟩
    show (IndexEntry.write_index toU32
        { tag := rt, data := .Bin [],
          offset := i32wrap ((i32ofNat records.length + 1) * (-16)),
          num_items := 16 }).length = 16
    exact IndexEntry.write_index_length _ _
  · right
    exact mem_of_map_shape (from_entriesAux_shape records []) e he

theorem from_entries_num_entries {α : Type} (toU32 : α → Nat)
    (records : List (IndexEntry α)) (rt : α) :
    (Header.from_entries toU32 records rt).index_entries.length = records.length + 1 := by
  have hs := congrArg List.length (from_entriesAux_shape records ([] : List Nat))
  simp only [List.length_map] at hs
  show (from_entriesAux records []).1.length + 1 = records.length + 1
  omega

/-! ## Parse/write round trip of a header built by `from_entries` -/

theorem IndexData.from_u32_to_u32 (d : IndexData) :
    IndexData.from_u32 d.to_u32 = some d.placeholder := by
  cases d <;> rfl

theorem IndexData.to_u32_lt (d : IndexData) : d.to_u32 < 4294967296 := by
  cases d <;> simp [IndexData.to_u32]

theorem IndexEntry.parse_write_index {α : Type} (toU32 : α → Nat)
    (fromU32 : Nat → Option α) (e : IndexEntry α) (rest : List Nat)
    (hc : fromU32 (toU32 e.tag) = some e.tag)
    (ht : toU32 e.tag < 4294967296)
    (h1 : -2147483648 ≤ e.offset) (h2 : e.offset < 2147483648)
    (hn : e.num_items < 4294967296) :
    IndexEntry.parse fromU32 (e.write_index toU32 ++ rest)
      = some (rest, { e with data := e.data.placeholder }) := by
  rw [IndexEntry.write_index]
  rw [List.append_assoc, List.append_assoc, List.append_assoc]
  have hr1 := readU32_natToBE (toU32 e.tag)
    (natToBE 4 e.data.to_u32 ++ (i32Bytes e.offset ++ (natToBE 4 e.num_items ++ rest))) ht
  have hr2 := readU32_natToBE e.data.to_u32
    (i32Bytes e.offset ++ (natToBE 4 e.num_items ++ rest)) (IndexData.to_u32_lt e.data)
  have hr3 := readI32_i32Bytes e.offset (natToBE 4 e.num_items ++ rest) h1 h2
  have hr4 := readU32_natToBE e.num_items rest hn
  simp only [IndexEntry.parse, hr1, hc, hr2, IndexData.from_u32_to_u32, hr3, hr4]

theorem parseEntries_append {α : Type} (toU32 : α → Nat) (fromU32 : Nat → Option α)
    (es : List (IndexEntry α)) (rest : List Nat)
    (h : ∀ e ∈ es, fromU32 (toU32 e.tag) = some e.tag ∧ toU32 e.tag < 4294967296
      ∧ -2147483648 ≤ e.offset ∧ e.offset < 2147483648 ∧ e.num_items < 4294967296) :
    parseEntries fromU32 es.length ((es.map (IndexEntry.write_index toU32)).flatten ++ rest)
      = some (es.map (fun e => { e with data := e.data.placeholder }), rest) := by
  induction es with
  | nil => rfl
  | cons e es ih =>
      obtain ⟨hc, ht, h1, h2, hn⟩ := h e (by simp)
      rw [List.length_cons, List.map_cons, List.flatten_cons, List.append_assoc]
      simp only [parseEntries,
        IndexEntry.parse_write_index toU32 fromU32 e _ hc ht h1 h2 hn,
        ih (fun x hx => h x (by simp [hx])), List.map_cons]

theorem fillEntry_shell {α : Type} (store : List Nat) (e : IndexEntry α) (m : Nat)
    (t : List Nat)
    (hm : e.offset = i32ofNat m) (hsize : store.length < 2147483648)
    (hle : m ≤ store.length)
    (hdrop : store.drop m = e.data.dataBytes ++ t)
    (hwf : e.data.wf) (hcnt : e.num_items = e.data.num_items) :
    fillEntry store { e with data := e.data.placeholder }
      = some { e with data := e.data.reparsed } := by
  have hmlt : m < 2147483648 := lt_of_le_of_lt hle hsize
  have hoff : e.offset = (m : Int) := by rw [hm, i32ofNat_of_lt m hmlt]
  rw [fillEntry]
  simp only [hoff]
  rw [if_neg (by omega), if_neg (by simp [Int.toNat_natCast]; omega)]
  simp only [Int.toNat_natCast]
  rw [hcnt, hdrop, parseEntryData_dataBytes e.data t hwf]

theorem fillEntries_eq_map {α : Type} (store : List Nat) (L : List (IndexEntry α))
    (h : ∀ e ∈ L, fillEntry store { e with data := e.data.placeholder }
        = some { e with data := e.data.reparsed }) :
    fillEntries store (L.map (fun e => { e with data := e.data.placeholder }))
      = some (L.map (fun e => { e with data := e.data.reparsed })) := by
  induction L with
  | nil => rfl
  | cons e L ih =>
      rw [List.map_cons, fillEntries, h e (by simp), ih (fun x hx => h x (by simp [hx])),
        List.map_cons]

theorem list_len4 (l : List Nat) (h : l.length = 4) : ∃ a b c d, l = [a, b, c, d] := by
  match l with
  | [a, b, c, d] => exact ⟨a, b, c, d, rfl⟩
  | [] => simp at h
  | [a] => simp at h
  | [a, b] => simp at h
  | [a, b, c] => simp at h
  | a :: b :: c :: d :: e :: t => simp at h

theorem IndexHeader.parse_write (ih : IndexHeader)
    (hmagic : ih.magic = HEADER_MAGIC) (hver : ih.version = 1)
    (hne : ih.num_entries < 4294967296) (hhs : ih.header_size < 4294967296) :
    IndexHeader.parse ih.write = some ih := by
  obtain ⟨a0, a1, a2, a3, ha⟩ := list_len4 (natToBE 4 ih.num_entries) (natToBE_length 4 _)
  obtain ⟨b0, b1, b2, b3, hb⟩ := list_len4 (natToBE 4 ih.header_size) (natToBE_length 4 _)
  have hva : bytesToNatBE [a0, a1, a2, a3] = ih.num_entries := by
    rw [← ha, bytesToNatBE_natToBE]
    norm_num
    omega
  have hvb : bytesToNatBE [b0, b1, b2, b3] = ih.header_size := by
    rw [← hb, bytesToNatBE_natToBE]
    norm_num
    omega
  rw [IndexHeader.write, hmagic, hver, ha, hb]
  show IndexHeader.parse
      (142 :: 173 :: 232 :: 1 :: 0 :: 0 :: 0 :: 0 :: a0 :: a1 :: a2 :: a3
        :: b0 :: b1 :: b2 :: b3 :: []) = some ih
  rw [IndexHeader.parse]
  norm_num [hva, hvb]
  cases ih
  simp_all [HEADER_MAGIC]

theorem IndexHeader.write_length (ih : IndexHeader) (hmagic : ih.magic = HEADER_MAGIC) :
    ih.write.length = 16 := by
  simp [IndexHeader.write, hmagic, HEADER_MAGIC, natToBE_length]

theorem table_length {α : Type} (toU32 : α → Nat) (es : List (IndexEntry α)) :
    ((es.map (IndexEntry.write_index toU32)).flatten).length = 16 * es.length := by
  induction es with
  | nil => rfl
  | cons e es ih =>
      simp only [List.map_cons, List.flatten_cons, List.length_append, ih,
        IndexEntry.write_index_length, List.length_cons]
      ring

theorem Header.parse_write_from_entries {α : Type} (toU32 : α → Nat)
    (fromU32 : Nat → Option α) (records : List (IndexEntry α)) (rt : α) (tail : List Nat)
    (hcodec : ∀ t : α, fromU32 (toU32 t) = some t ∧ toU32 t < 4294967296)
    (hwf : ∀ r ∈ records, r.data.wf ∧ r.num_items = r.data.num_items)
    (hstore : (Header.from_entries toU32 records rt).store.length < 2147483648)
    (hcnt : (Header.from_entries toU32 records rt).store.length
        + (records.length + 1) * 16 < 4294967296) :
    Header.parse fromU32 (Header.write toU32 (Header.from_entries toU32 records rt) ++ tail)
      = some ({ Header.from_entries toU32 records rt with
          index_entries := (Header.from_entries toU32 records rt).index_entries.map
            (fun e => { e with data := e.data.reparsed }) }, tail) := by
  set H := Header.from_entries toU32 records rt with hH
  have hihm : H.index_header.magic = HEADER_MAGIC := rfl
  have hihv : H.index_header.version = 1 := rfl
  have hihn : H.index_header.num_entries = records.length + 1 := rfl
  have hihs : H.index_header.header_size = H.store.length := rfl
  have hentlen : H.index_entries.length = records.length + 1 :=
    from_entries_num_entries toU32 records rt
  have hmem := from_entries_mem toU32 records rt
  have hinv := from_entries_entries toU32 records rt
  rw [← hH] at hmem hinv
  have hwfe : ∀ e ∈ H.index_entries, e.data.wf ∧ e.num_items = e.data.num_items := by
    intro e he
    rcases hmem e he with ⟨_, ⟨bytes, hdata, hlen⟩, hnum⟩ | ⟨r, hr, _, hd, hn⟩
    · constructor
      · rw [hdata]; trivial
      · rw [hnum, hdata]; simp [IndexData.num_items, hlen]
    · obtain ⟨hw, hc⟩ := hwf r hr
      exact ⟨by rw [hd]; exact hw, by rw [hn, hc, hd]⟩
  have hbounds : ∀ e ∈ H.index_entries,
      -2147483648 ≤ e.offset ∧ e.offset < 2147483648 := by
    intro e he
    obtain ⟨m, t, h1, _, h3, _⟩ := hinv e he
    rw [h1]
    exact i32ofNat_nonneg_lt m (lt_of_le_of_lt h3 hstore)
  have hcnts : ∀ e ∈ H.index_entries, e.num_items < 4294967296 := by
    intro e he
    obtain ⟨_, hcnt'⟩ := hwfe e he
    obtain ⟨m, t, _, _, h3, h4⟩ := hinv e he
    have hdb : e.data.dataBytes.length ≤ H.store.length := by
      have hlen := congrArg List.length h4
      simp only [List.length_drop, List.length_append] at hlen
      omega
    have hni := num_items_le_dataBytes e.data
    omega
  have hsplit1 : Header.write toU32 H ++ tail
      = H.index_header.write
        ++ ((H.index_entries.map (IndexEntry.write_index toU32)).flatten
              ++ (H.store ++ tail)) := by
    simp [Header.write, List.append_assoc]
  have hrb1 := readBytes_append H.index_header.write
    ((H.index_entries.map (IndexEntry.write_index toU32)).flatten ++ (H.store ++ tail)) 16
    (IndexHeader.write_length _ hihm)
  have hihp := IndexHeader.parse_write H.index_header hihm hihv
    (by rw [hihn]; omega) (by rw [hihs]; omega)
  have hcnteq : (H.index_header.header_size + H.index_header.num_entries * 16) % 4294967296
      = H.store.length + (records.length + 1) * 16 := by
    rw [hihs, hihn]
    exact Nat.mod_eq_of_lt (by omega)
  have hbody : readBytes (H.store.length + (records.length + 1) * 16)
      ((H.index_entries.map (IndexEntry.write_index toU32)).flatten ++ (H.store ++ tail))
      = some ((H.index_entries.map (IndexEntry.write_index toU32)).flatten ++ H.store,
          tail) := by
    have hgrp : (H.index_entries.map (IndexEntry.write_index toU32)).flatten
          ++ (H.store ++ tail)
        = ((H.index_entries.map (IndexEntry.write_index toU32)).flatten ++ H.store)
          ++ tail := by
      simp [List.append_assoc]
    rw [hgrp]
    apply readBytes_append
    simp only [List.length_append, table_length, hentlen]
    ring
  have hpe : parseEntries fromU32 H.index_header.num_entries
      ((H.index_entries.map (IndexEntry.write_index toU32)).flatten ++ H.store)
      = some (H.index_entries.map (fun e => { e with data := e.data.placeholder }),
          H.store) := by
    rw [hihn, ← hentlen]
    apply parseEntries_append
    intro e he
    exact ⟨(hcodec e.tag).1, (hcodec e.tag).2, (hbounds e he).1, (hbounds e he).2,
      hcnts e he⟩
  have hfe : fillEntries H.store
      (H.index_entries.map (fun e => { e with data := e.data.placeholder }))
      = some (H.index_entries.map (fun e => { e with data := e.data.reparsed })) := by
    apply fillEntries_eq_map
    intro e he
    obtain ⟨m, t, h1, _, h3, h4⟩ := hinv e he
    exact fillEntry_shell H.store e m t h1 hstore h3 h4 (hwfe e he).1 (hwfe e he).2
  rw [hsplit1]
  simp only [Header.parse, hrb1, hihp, hcnteq, hbody, hpe, hfe]

/-! ## Tag sets (`enum IndexSignatureTag`, `enum IndexTag`) -/

/-- `enum IndexSignatureTag` (all eight variants of the source). -/
inductive IndexSignatureTag : Type where
  | HEADER_SIGNATURES : IndexSignatureTag
  | RPMSIGTAG_SIZE : IndexSignatureTag
  | RPMSIGTAG_PAYLOADSIZE : IndexSignatureTag
  | RPMSIGTAG_SHA1 : IndexSignatureTag
  | RPMSIGTAG_MD5 : IndexSignatureTag
  | RPMSIGTAG_DSA : IndexSignatureTag
  | RPMSIGTAG_RSA : IndexSignatureTag
  | RPMSIGTAG_PGP : IndexSignatureTag
  | RPMSIGTAG_GPG : IndexSignatureTag
deriving DecidableEq

/-- `ToPrimitive` discriminants of `IndexSignatureTag`. -/
def IndexSignatureTag.to_u32 : IndexSignatureTag → Nat
  | .HEADER_SIGNATURES => 62
  | .RPMSIGTAG_SIZE => 1000
  | .RPMSIGTAG_PAYLOADSIZE => 1007
  | .RPMSIGTAG_SHA1 => 269
  | .RPMSIGTAG_MD5 => 1004
  | .RPMSIGTAG_DSA => 267
  | .RPMSIGTAG_RSA => 268
  | .RPMSIGTAG_PGP => 1002
  | .RPMSIGTAG_GPG => 1005

/-- `FromPrimitive` for `IndexSignatureTag`. -/
def IndexSignatureTag.from_u32 : Nat → Option IndexSignatureTag
  | 62 => some .HEADER_SIGNATURES
  | 1000 => some .RPMSIGTAG_SIZE
  | 1007 => some .RPMSIGTAG_PAYLOADSIZE
  | 269 => some .RPMSIGTAG_SHA1
  | 1004 => some .RPMSIGTAG_MD5
  | 267 => some .RPMSIGTAG_DSA
  | 268 => some .RPMSIGTAG_RSA
  | 1002 => some .RPMSIGTAG_PGP
  | 1005 => some .RPMSIGTAG_GPG
  | _ => none

theorem sigtag_codec (t : IndexSignatureTag) :
    IndexSignatureTag.from_u32 t.to_u32 = some t ∧ t.to_u32 < 4294967296 := by
  cases t <;> exact ⟨rfl, by norm_num [IndexSignatureTag.to_u32]⟩

/-- The subset of `enum IndexTag` referenced by `Header::new_header` and by
the claims; the source enum has further variants which no modelled code path
constructs or looks up. Discriminants follow the source. -/
inductive IndexTag : Type where
  | RPMTAG_HEADERIMMUTABLE : IndexTag
  | RPMTAG_HEADERI18NTABLE : IndexTag
  | RPMTAG_NAME : IndexTag
  | RPMTAG_VERSION : IndexTag
  | RPMTAG_RELEASE : IndexTag
  | RPMTAG_SUMMARY : IndexTag
  | RPMTAG_DESCRIPTION : IndexTag
  | RPMTAG_SIZE : IndexTag
  | RPMTAG_LICENSE : IndexTag
  | RPMTAG_GROUP : IndexTag
  | RPMTAG_OS : IndexTag
  | RPMTAG_ARCH : IndexTag
  | RPMTAG_FILESIZES : IndexTag
  | RPMTAG_FILEMODES : IndexTag
  | RPMTAG_FILERDEVS : IndexTag
  | RPMTAG_FILEMTIMES : IndexTag
  | RPMTAG_FILEDIGESTS : IndexTag
  | RPMTAG_FILELINKTOS : IndexTag
  | RPMTAG_FILEFLAGS : IndexTag
  | RPMTAG_FILEUSERNAME : IndexTag
  | RPMTAG_FILEGROUPNAME : IndexTag
  | RPMTAG_FILEVERIFYFLAGS : IndexTag
  | RPMTAG_PROVIDENAME : IndexTag
  | RPMTAG_REQUIREFLAGS : IndexTag
  | RPMTAG_REQUIRENAME : IndexTag
  | RPMTAG_REQUIREVERSION : IndexTag
  | RPMTAG_CONFLICTFLAGS : IndexTag
  | RPMTAG_CONFLICTNAME : IndexTag
  | RPMTAG_CONFLICTVERSION : IndexTag
  | RPMTAG_OBSOLETENAME : IndexTag
  | RPMTAG_FILEDEVICES : IndexTag
  | RPMTAG_FILEINODES : IndexTag
  | RPMTAG_FILELANGS : IndexTag
  | RPMTAG_PROVIDEFLAGS : IndexTag
  | RPMTAG_PROVIDEVERSION : IndexTag
  | RPMTAG_OBSOLETEFLAGS : IndexTag
  | RPMTAG_OBSOLETEVERSION : IndexTag
  | RPMTAG_DIRINDEXES : IndexTag
  | RPMTAG_BASENAMES : IndexTag
  | RPMTAG_DIRNAMES : IndexTag
  | RPMTAG_PAYLOADFORMAT : IndexTag
  | RPMTAG_PAYLOADCOMPRESSOR : IndexTag
  | RPMTAG_PAYLOADFLAGS : IndexTag
  | RPMTAG_FILEDIGESTALGO : IndexTag
deriving DecidableEq

/-- `ToPrimitive` discriminants of the modelled `IndexTag` variants. -/
def IndexTag.to_u32 : IndexTag → Nat
  | .RPMTAG_HEADERIMMUTABLE => 63
  | .RPMTAG_HEADERI18NTABLE => 100
  | .RPMTAG_NAME => 1000
  | .RPMTAG_VERSION => 1001
  | .RPMTAG_RELEASE => 1002
  | .RPMTAG_SUMMARY => 1004
  | .RPMTAG_DESCRIPTION => 1005
  | .RPMTAG_SIZE => 1009
  | .RPMTAG_LICENSE => 1014
  | .RPMTAG_GROUP => 1016
  | .RPMTAG_OS => 1021
  | .RPMTAG_ARCH => 1022
  | .RPMTAG_FILESIZES => 1028
  | .RPMTAG_FILEMODES => 1030
  | .RPMTAG_FILERDEVS => 1033
  | .RPMTAG_FILEMTIMES => 1034
  | .RPMTAG_FILEDIGESTS => 1035
  | .RPMTAG_FILELINKTOS => 1036
  | .RPMTAG_FILEFLAGS => 1037
  | .RPMTAG_FILEUSERNAME => 1039
  | .RPMTAG_FILEGROUPNAME => 1040
  | .RPMTAG_FILEVERIFYFLAGS => 1045
  | .RPMTAG_PROVIDENAME => 1047
  | .RPMTAG_REQUIREFLAGS => 1048
  | .RPMTAG_REQUIRENAME => 1049
  | .RPMTAG_REQUIREVERSION => 1050
  | .RPMTAG_CONFLICTFLAGS => 1053
  | .RPMTAG_CONFLICTNAME => 1054
  | .RPMTAG_CONFLICTVERSION => 1055
  | .RPMTAG_OBSOLETENAME => 1090
  | .RPMTAG_FILEDEVICES => 1095
  | .RPMTAG_FILEINODES => 1096
  | .RPMTAG_FILELANGS => 1097
  | .RPMTAG_PROVIDEFLAGS => 1112
  | .RPMTAG_PROVIDEVERSION => 1113
  | .RPMTAG_OBSOLETEFLAGS => 1114
  | .RPMTAG_OBSOLETEVERSION => 1115
  | .RPMTAG_DIRINDEXES => 1116
  | .RPMTAG_BASENAMES => 1117
  | .RPMTAG_DIRNAMES => 1118
  | .RPMTAG_PAYLOADFORMAT => 1124
  | .RPMTAG_PAYLOADCOMPRESSOR => 1125
  | .RPMTAG_PAYLOADFLAGS => 1126
  | .RPMTAG_FILEDIGESTALGO => 5011

/-! ## Signature header specialization -/

/-- `Header::<IndexSignatureTag>::new_signature_header` (size, MD5 bytes,
SHA-1 hex string). -/
def Header.new_signature_header (size : Int) (md5 : List Nat) (sha1 : List Nat) :
    Header IndexSignatureTag :=
  Header.from_entries IndexSignatureTag.to_u32
    [IndexEntry.new .RPMSIGTAG_SIZE 0 (.Int32 [size]),
     IndexEntry.new .RPMSIGTAG_MD5 0 (.Bin md5),
     IndexEntry.new .RPMSIGTAG_SHA1 0 (.StringTag sha1)]
    .HEADER_SIGNATURES

/-- `Header::write_signature`: the header then `8 - header_size % 8` zero
bytes when `header_size % 8 > 0`. -/
def Header.write_signature (h : Header IndexSignatureTag) : List Nat :=
  Header.write IndexSignatureTag.to_u32 h
    ++ (if h.index_header.header_size % 8 = 0 then []
        else List.replicate (8 - h.index_header.header_size % 8) 0)

/-- `Header::parse_signature`: parse, then discard the 8-byte alignment
padding after the store. -/
def Header.parse_signature (input : List Nat) :
    Option (Header IndexSignatureTag × List Nat) :=
  match Header.parse IndexSignatureTag.from_u32 input with
  | none => none
  | some (h, rest) =>
      if h.index_header.header_size % 8 = 0 then some (h, rest)
      else
        match readBytes (8 - h.index_header.header_size % 8) rest with
        | none => none
        | some (_, rest') => some (h, rest')

/-- The builder's signature computation (`RPMBuilder::build`, lines
2018-2034): `RPMSIGTAG_SIZE` is `len(H) + len(P)` as i32, `RPMSIGTAG_MD5` the
MD5 of `H ‖ P`, `RPMSIGTAG_SHA1` the hex SHA-1 of `H`.  The hash primitives
are out-of-scope collaborators and passed as functions. -/
def buildSignatureHeader (md5f : List Nat → List Nat) (sha1f : List Nat → List Nat)
    (header_bytes payload : List Nat) : Header IndexSignatureTag :=
  Header.new_signature_header (i32ofNat (header_bytes.length + payload.length))
    (md5f (header_bytes ++ payload)) (sha1f header_bytes)

/-! ## `find_entry` through `from_entries` -/

theorem find_map_data {α : Type} [DecidableEq α] {l1 l2 : List (IndexEntry α)} (tag : α)
    (h : l1.map (fun e => (e.tag, e.data, e.num_items))
       = l2.map (fun e => (e.tag, e.data, e.num_items))) :
    (l1.find? (fun e => decide (e.tag = tag))).map (fun e => e.data)
      = (l2.find? (fun e => decide (e.tag = tag))).map (fun e => e.data) := by
  induction l1 generalizing l2 with
  | nil => cases l2 with
      | nil => rfl
      | cons b l2 => simp at h
  | cons a l1 ih =>
      cases l2 with
      | nil => simp at h
      | cons b l2 =>
          simp only [List.map_cons, List.cons.injEq, Prod.mk.injEq] at h
          obtain ⟨⟨htag, hdata, _⟩, hrest⟩ := h
          by_cases hc : a.tag = tag
          · rw [List.find?_cons_of_pos _ (by simp [hc]),
              List.find?_cons_of_pos _ (by simp [htag ▸ hc])]
            simp [hdata]
          · rw [List.find?_cons_of_neg _ (by simp [hc]),
              List.find?_cons_of_neg _ (by simp [← htag, hc])]
            exact ih hrest

theorem find_entry_from_entries {α : Type} [DecidableEq α] (toU32 : α → Nat)
    (records : List (IndexEntry α)) (rt tag : α) (hne : tag ≠ rt) :
    ((Header.from_entries toU32 records rt).find_entry tag).map (fun e => e.data)
      = (records.find? (fun e => decide (e.tag = tag))).map (fun e => e.data) := by
  show ((Header.create_region_tag toU32 rt (i32ofNat records.length)
          (i32ofNat (from_entriesAux records []).2.length)
        :: (from_entriesAux records []).1).find? (fun e => decide (e.tag = tag))).map
      (fun e => e.data) = _
  rw [List.find?_cons_of_neg _ (by simp [Header.create_region_tag, IndexEntry.new]; exact fun hh => hne hh.symm)]
  exact find_map_data tag (from_entriesAux_shape records [])

theorem Header.write_bytes_length {α : Type} (toU32 : α → Nat) (h : Header α)
    (hm : h.index_header.magic = HEADER_MAGIC) :
    (Header.write toU32 h).length
      = 16 + 16 * h.index_entries.length + h.store.length := by
  simp only [Header.write, List.length_append, IndexHeader.write_length _ hm,
    table_length]

/-! ## Claim C6 -/

/-- C6: for every signature header built by `from_entries` (well-formed
records, sizes within the u32/i32 ranges), the byte count produced by
`write_signature` is `16 + 16·num_entries + store + (8 - store % 8 when
nonzero)` — a multiple of 8 — and `parse_signature` consumes exactly that
padding after the store, returning the rest of the stream untouched. -/
theorem c6_signature_alignment (records : List (IndexEntry IndexSignatureTag))
    (tail : List Nat)
    (hwf : ∀ r ∈ records, r.data.wf ∧ r.num_items = r.data.num_items)
    (hstore : (Header.from_entries IndexSignatureTag.to_u32 records
        .HEADER_SIGNATURES).store.length < 2147483648)
    (hcnt : (Header.from_entries IndexSignatureTag.to_u32 records
        .HEADER_SIGNATURES).store.length + (records.length + 1) * 16 < 4294967296) :
    (Header.write_signature (Header.from_entries IndexSignatureTag.to_u32 records
        .HEADER_SIGNATURES)).length % 8 = 0 ∧
    (Header.write_signature (Header.from_entries IndexSignatureTag.to_u32 records
        .HEADER_SIGNATURES)).length
      = 16 + 16 * (records.length + 1)
        + (Header.from_entries IndexSignatureTag.to_u32 records
            .HEADER_SIGNATURES).store.length
        + (if (Header.from_entries IndexSignatureTag.to_u32 records
              .HEADER_SIGNATURES).store.length % 8 = 0 then 0
           else 8 - (Header.from_entries IndexSignatureTag.to_u32 records
              .HEADER_SIGNATURES).store.length % 8) ∧
    ∃ h', Header.parse_signature
        (Header.write_signature (Header.from_entries IndexSignatureTag.to_u32 records
          .HEADER_SIGNATURES) ++ tail) = some (h', tail) := by
  set H := Header.from_entries IndexSignatureTag.to_u32 records .HEADER_SIGNATURES with hH
  have hihm : H.index_header.magic = HEADER_MAGIC := rfl
  have hihs : H.index_header.header_size = H.store.length := rfl
  have hentlen : H.index_entries.length = records.length + 1 := by
    rw [hH]; exact from_entries_num_entries _ records _
  have hwlen : (Header.write IndexSignatureTag.to_u32 H).length
      = 16 + 16 * (records.length + 1) + H.store.length := by
    rw [Header.write_bytes_length _ _ hihm, hentlen]
  have hwsig : Header.write_signature H
      = Header.write IndexSignatureTag.to_u32 H
        ++ (if H.store.length % 8 = 0 then []
            else List.replicate (8 - H.store.length % 8) 0) := by
    rw [Header.write_signature, hihs]
  have hparse := Header.parse_write_from_entries IndexSignatureTag.to_u32
    IndexSignatureTag.from_u32 records .HEADER_SIGNATURES
    ((if H.store.length % 8 = 0 then []
      else List.replicate (8 - H.store.length % 8) 0) ++ tail)
    sigtag_codec hwf (by rw [← hH]; exact hstore) (by rw [← hH]; exact hcnt)
  rw [← hH] at hparse
  refine ⟨?_, ?_, ?_⟩
  · rw [hwsig, List.length_append, hwlen]
    by_cases hc : H.store.length % 8 = 0
    · simp [hc]
      omega
    · rw [if_neg hc]
      simp only [List.length_replicate]
      omega
  · rw [hwsig, List.length_append, hwlen]
    by_cases hc : H.store.length % 8 = 0 <;> simp [hc]
  · set H2 : Header IndexSignatureTag :=
      { index_header := H.index_header
        index_entries := H.index_entries.map (fun e => { e with data := e.data.reparsed })
        store := H.store } with hH2
    refine ⟨H2, ?_⟩
    rw [hwsig, List.append_assoc]
    simp only [Header.parse_signature, hparse]
    rw [hihs]
    by_cases hc : H.store.length % 8 = 0
    · simp [hc]
    · have hrb := readBytes_append (List.replicate (8 - H.store.length % 8) 0) tail
        (8 - H.store.length % 8) (by simp)
      simp [hc, hrb]

/-- Concrete record list for the C6 witness. -/
def c6Records : List (IndexEntry IndexSignatureTag) :=
  [IndexEntry.new .RPMSIGTAG_SIZE 0 (.Int32 [5])]

/-- C6 witness: the signature-alignment theorem applied to a concrete
one-record signature header followed by two extra stream bytes. -/
theorem c6_signature_alignment_witness :
    (∀ r ∈ c6Records, r.data.wf ∧ r.num_items = r.data.num_items) ∧
    ((Header.from_entries IndexSignatureTag.to_u32 c6Records
        .HEADER_SIGNATURES).store.length < 2147483648) ∧
    ((Header.from_entries IndexSignatureTag.to_u32 c6Records
        .HEADER_SIGNATURES).store.length + (c6Records.length + 1) * 16 < 4294967296) ∧
    ((Header.write_signature (Header.from_entries IndexSignatureTag.to_u32 c6Records
        .HEADER_SIGNATURES)).length % 8 = 0 ∧
     (Header.write_signature (Header.from_entries IndexSignatureTag.to_u32 c6Records
        .HEADER_SIGNATURES)).length
       = 16 + 16 * (c6Records.length + 1)
         + (Header.from_entries IndexSignatureTag.to_u32 c6Records
             .HEADER_SIGNATURES).store.length
         + (if (Header.from_entries IndexSignatureTag.to_u32 c6Records
               .HEADER_SIGNATURES).store.length % 8 = 0 then 0
            else 8 - (Header.from_entries IndexSignatureTag.to_u32 c6Records
               .HEADER_SIGNATURES).store.length % 8) ∧
     ∃ h', Header.parse_signature
        (Header.write_signature (Header.from_entries IndexSignatureTag.to_u32 c6Records
          .HEADER_SIGNATURES) ++ [7, 7]) = some (h', [7, 7])) :=
  ⟨by decide, by decide, by decide,
    c6_signature_alignment c6Records [7, 7] (by decide) (by decide) (by decide)⟩

/-! ## Claim C1 -/

/-- The record list of the C1 failing input: one I18NString entry holding the
two strings "a" and "b". -/
def c1Records : List (IndexEntry IndexSignatureTag) :=
  [IndexEntry.new .RPMSIGTAG_SHA1 0 (.I18NString [[97], [98]])]

/-- The C1 failing header: built by `from_entries` from `c1Records`. -/
def c1Header : Header IndexSignatureTag :=
  Header.from_entries IndexSignatureTag.to_u32 c1Records .HEADER_SIGNATURES

/-- C1 (code bug): write the header whose entry 1 holds the I18NString
["a", "b"], parse the bytes back — the parsed entry 1 holds ["a", ""], not
["a", "b"]: the store-filling loop never advances past the NUL that
terminates each I18NString element, so every element after the first parses
empty and the round trip of the claim fails. -/
theorem c1_i18n_roundtrip_bug :
    ((Header.parse IndexSignatureTag.from_u32
        (Header.write IndexSignatureTag.to_u32 c1Header)).bind
      (fun p => (p.1.index_entries.get? 1).map (fun e => e.data)))
      = some (IndexData.I18NString [[97], []]) ∧
    (c1Header.index_entries.get? 1).map (fun e => e.data)
      = some (IndexData.I18NString [[97], [98]]) ∧
    IndexData.I18NString [[97], []] ≠ IndexData.I18NString [[97], [98]] := by
  refine ⟨by decide, by decide, by decide⟩

/-! ## Claim C2 -/

/-- C2: in the signature header the builder computes for main-header bytes
`H` and payload bytes `P`, the `RPMSIGTAG_MD5` entry is the MD5 of `H ‖ P`,
the `RPMSIGTAG_SHA1` entry is the hex SHA-1 of `H`, and the `RPMSIGTAG_SIZE`
entry is `len(H) + len(P)` (which must fit an i32).  MD5 and SHA-1 are
out-of-scope hash primitives, passed as the functions `md5f` and `sha1f`. -/
theorem c2_digest_entries (md5f sha1f : List Nat → List Nat) (H P : List Nat)
    (hsz : H.length + P.length < 2147483648) :
    ((buildSignatureHeader md5f sha1f H P).find_entry .RPMSIGTAG_MD5).map
        (fun e => e.data) = some (.Bin (md5f (H ++ P))) ∧
    ((buildSignatureHeader md5f sha1f H P).find_entry .RPMSIGTAG_SHA1).map
        (fun e => e.data) = some (.StringTag (sha1f H)) ∧
    ((buildSignatureHeader md5f sha1f H P).find_entry .RPMSIGTAG_SIZE).map
        (fun e => e.data) = some (.Int32 [(H.length : Int) + (P.length : Int)]) := by
  have hrecords : buildSignatureHeader md5f sha1f H P
      = Header.from_entries IndexSignatureTag.to_u32
          [IndexEntry.new .RPMSIGTAG_SIZE 0
              (.Int32 [i32ofNat (H.length + P.length)]),
           IndexEntry.new .RPMSIGTAG_MD5 0 (.Bin (md5f (H ++ P))),
           IndexEntry.new .RPMSIGTAG_SHA1 0 (.StringTag (sha1f H))]
          .HEADER_SIGNATURES := rfl
  refine ⟨?_, ?_, ?_⟩
  · rw [hrecords, find_entry_from_entries _ _ _ _ (by decide)]
    rw [List.find?_cons_of_neg _ (by simp [IndexEntry.new]),
      List.find?_cons_of_pos _ (by simp [IndexEntry.new])]
    rfl
  · rw [hrecords, find_entry_from_entries _ _ _ _ (by decide)]
    rw [List.find?_cons_of_neg _ (by simp [IndexEntry.new]),
      List.find?_cons_of_neg _ (by simp [IndexEntry.new]),
      List.find?_cons_of_pos _ (by simp [IndexEntry.new])]
    rfl
  · rw [hrecords, find_entry_from_entries _ _ _ _ (by decide)]
    rw [List.find?_cons_of_pos _ (by simp [IndexEntry.new])]
    simp only [Option.map_some', IndexEntry.new]
    rw [i32ofNat_of_lt _ hsz]
    norm_num

/-- C2 witness: the digest theorem applied at concrete hash functions,
header bytes `[1]` and payload `[2, 3]`. -/
theorem c2_digest_entries_witness :
    (([1] : List Nat).length + ([2, 3] : List Nat).length < 2147483648) ∧
    (((buildSignatureHeader (fun _ => [16]) (fun _ => [97]) [1] [2, 3]).find_entry
        .RPMSIGTAG_MD5).map (fun e => e.data) = some (.Bin [16]) ∧
     ((buildSignatureHeader (fun _ => [16]) (fun _ => [97]) [1] [2, 3]).find_entry
        .RPMSIGTAG_SHA1).map (fun e => e.data) = some (.StringTag [97]) ∧
     ((buildSignatureHeader (fun _ => [16]) (fun _ => [97]) [1] [2, 3]).find_entry
        .RPMSIGTAG_SIZE).map (fun e => e.data)
       = some (.Int32 [(([1] : List Nat).length : Int) + (([2, 3] : List Nat).length : Int)])) :=
  ⟨by decide, c2_digest_entries (fun _ => [16]) (fun _ => [97]) [1] [2, 3] (by decide)⟩

/-! ## Claim C3 -/

/-- Payload bytes of a `Bin` value (empty for other kinds). -/
def IndexData.bin_bytes : IndexData → List Nat
  | .Bin d => d
  | _ => []

/-- C3: for every signature tag and every `records_count` for which the i32
arithmetic does not overflow, `create_region_tag` carries the requested
offset and a 16-byte `Bin` payload that parses back as an `IndexEntry` with
that tag, kind `Bin`, count 16 and offset `-((records_count + 1) * 16)`. -/
theorem c3_region_tag (tag : IndexSignatureTag) (records_count offset : Int)
    (h1 : -2147483648 ≤ (records_count + 1) * (-16))
    (h2 : (records_count + 1) * (-16) < 2147483648) :
    (Header.create_region_tag IndexSignatureTag.to_u32 tag records_count offset).offset
      = offset ∧
    ((Header.create_region_tag IndexSignatureTag.to_u32 tag records_count
        offset).data.bin_bytes).length = 16 ∧
    IndexEntry.parse IndexSignatureTag.from_u32
        ((Header.create_region_tag IndexSignatureTag.to_u32 tag records_count
            offset).data.bin_bytes)
      = some ([], { tag := tag, data := .Bin [],
                    offset := -((records_count + 1) * 16), num_items := 16 }) := by
  have hwrap : i32wrap ((records_count + 1) * (-16)) = (records_count + 1) * (-16) :=
    toSigned_wrap4 _ h1 h2
  have hbytes : (Header.create_region_tag IndexSignatureTag.to_u32 tag records_count
      offset).data.bin_bytes
      = IndexEntry.write_index IndexSignatureTag.to_u32
          { tag := tag, data := .Bin [],
            offset := i32wrap ((records_count + 1) * (-16)), num_items := 16 } := rfl
  refine ⟨rfl, ?_, ?_⟩
  · rw [hbytes, IndexEntry.write_index_length]
  · rw [hbytes]
    have hp := IndexEntry.parse_write_index IndexSignatureTag.to_u32
      IndexSignatureTag.from_u32
      { tag := tag, data := .Bin [],
        offset := i32wrap ((records_count + 1) * (-16)), num_items := 16 } []
      (sigtag_codec tag).1 (sigtag_codec tag).2
      (by rw [hwrap]; exact h1) (by rw [hwrap]; exact h2) (by norm_num)
    rw [List.append_nil] at hp
    rw [hp, hwrap]
    have : (records_count + 1) * (-16) = -((records_count + 1) * 16) := by ring
    rw [this]
    rfl

/-- C3 witness: `HEADER_SIGNATURES`, records_count = 2, offset = 400 — the
parsed payload has the stored offset field −48 (spec scenario S3). -/
theorem c3_region_tag_witness :
    (-2147483648 ≤ ((2 : Int) + 1) * (-16)) ∧ (((2 : Int) + 1) * (-16) < 2147483648) ∧
    ((Header.create_region_tag IndexSignatureTag.to_u32 .HEADER_SIGNATURES 2 400).offset
        = 400 ∧
     ((Header.create_region_tag IndexSignatureTag.to_u32 .HEADER_SIGNATURES 2
         400).data.bin_bytes).length = 16 ∧
     IndexEntry.parse IndexSignatureTag.from_u32
         ((Header.create_region_tag IndexSignatureTag.to_u32 .HEADER_SIGNATURES 2
             400).data.bin_bytes)
       = some ([], { tag := .HEADER_SIGNATURES, data := .Bin [],
                     offset := -48, num_items := 16 })) := by
  refine ⟨by decide, by decide, ?_⟩
  have h := c3_region_tag .HEADER_SIGNATURES 2 400 (by decide) (by decide)
  simpa using h

/-! ## Claim C7 -/

/-- C7: in every header built by `from_entries` (with the store below 2^31 so
`as i32` does not change the value), every entry's recorded offset is
nonnegative, divisible by the alignment of its value kind (2, 4, 8 for
Int16/Int32/Int64, 1 otherwise), and the store at that offset starts with the
entry's value bytes — the alignment padding sits immediately before them. -/
theorem c7_int_alignment {α : Type} (toU32 : α → Nat) (records : List (IndexEntry α))
    (rt : α) (e : IndexEntry α)
    (hstore : (Header.from_entries toU32 records rt).store.length < 2147483648)
    (he : e ∈ (Header.from_entries toU32 records rt).index_entries) :
    e.offset % (e.data.alignOf : Int) = 0 ∧ 0 ≤ e.offset ∧
    ∃ t, (Header.from_entries toU32 records rt).store.drop e.offset.toNat
        = e.data.dataBytes ++ t := by
  obtain ⟨m, t, h1, h2, h3, h4⟩ := from_entries_entries toU32 records rt e he
  have hm : m < 2147483648 := lt_of_le_of_lt h3 hstore
  have hoff : e.offset = (m : Int) := by rw [h1, i32ofNat_of_lt m hm]
  refine ⟨?_, ?_, ?_⟩
  · rw [hoff]
    have hcast := congrArg (fun n : Nat => (n : Int)) h2
    simp only [Int.natCast_mod] at hcast
    simpa using hcast
  · rw [hoff]
    exact Int.natCast_nonneg m
  · rw [hoff]
    exact ⟨t, by rw [Int.toNat_natCast]; exact h4⟩

/-- Concrete records for the C7 witness: a 5-byte Bin value followed by an
Int64, which must land at offset 8 after 3 bytes of padding (scenario S6). -/
def c7Records : List (IndexEntry IndexSignatureTag) :=
  [IndexEntry.new .RPMSIGTAG_MD5 0 (.Bin [1, 2, 3, 4, 5]),
   IndexEntry.new .RPMSIGTAG_SIZE 0 (.Int64 [7])]

/-- The Int64 entry as it appears in the header built from `c7Records`. -/
def c7Entry : IndexEntry IndexSignatureTag :=
  { tag := .RPMSIGTAG_SIZE, data := .Int64 [7], offset := 8, num_items := 1 }

/-- C7 witness: the alignment theorem applied to the Int64 entry of the
concrete header; its offset 8 is a multiple of 8. -/
theorem c7_int_alignment_witness :
    ((Header.from_entries IndexSignatureTag.to_u32 c7Records
        .HEADER_SIGNATURES).store.length < 2147483648) ∧
    (c7Entry ∈ (Header.from_entries IndexSignatureTag.to_u32 c7Records
        .HEADER_SIGNATURES).index_entries) ∧
    (c7Entry.offset % (c7Entry.data.alignOf : Int) = 0 ∧ 0 ≤ c7Entry.offset ∧
     ∃ t, (Header.from_entries IndexSignatureTag.to_u32 c7Records
        .HEADER_SIGNATURES).store.drop c7Entry.offset.toNat
          = c7Entry.data.dataBytes ++ t) :=
  ⟨by decide, by decide,
    c7_int_alignment IndexSignatureTag.to_u32 c7Records .HEADER_SIGNATURES c7Entry
      (by decide) (by decide)⟩

/-! ## Dependencies and the main header builder (`Header::new_header`) -/

/-- RPM dependency sense flags used by the modelled constructors. -/
def RPMSENSE_ANY : Nat := 0

def RPMSENSE_LESS : Nat := 2

def RPMSENSE_GREATER : Nat := 4

def RPMSENSE_EQUAL : Nat := 8

/-- `struct Dependency` (name, sense bitfield, version), strings as bytes. -/
structure Dependency where
  dep_name : List Nat
  sense : Nat
  version : List Nat
deriving DecidableEq

/-- `Dependency::eq`. -/
def Dependency.eq (dep_name version : List Nat) : Dependency :=
  { dep_name := dep_name, sense := RPMSENSE_EQUAL, version := version }

/-- `Dependency::any` (empty version, ANY sense). -/
def Dependency.any (dep_name : List Nat) : Dependency :=
  { dep_name := dep_name, sense := RPMSENSE_ANY, version := [] }

/-- `struct RPMFileEntry`.  `dir_index` and `base_name` are `Option` in the
source but always set by the builder before `new_header` unwraps them, so
they are modelled as plain fields; `old_name` is never read and omitted. -/
structure RPMFileEntry where
  size : Int
  mode : Int
  file_device : Int
  file_rdevice : Int
  inode : Int
  modified_at : Int
  md5_checksum : List Nat
  link : List Nat
  flag : Int
  user : List Nat
  group : List Nat
  lang : List Nat
  dir_index : Int
  base_name : List Nat
deriving DecidableEq

/-- `d.sense as i32` (u32 reinterpreted as i32). -/
def senseAsI32 (d : Dependency) : Int := toSigned 4 (d.sense % 4294967296)

/-- `Header::<IndexTag>::new_header` (source lines 447-760): the per-file
parallel vectors, the fixed entry list, the dependency triples, with the
obsoletes / requires / conflicts triples only when their flag vectors are
nonempty, all passed to `from_entries` under `RPMTAG_HEADERIMMUTABLE`. -/
def Header.new_header (name version release desc summary arch license : List Nat)
    (entries : List RPMFileEntry) (directories : List (List Nat))
    (requires provides obsoletes conflicts : List Dependency) : Header IndexTag :=
  let combined_file_sizes : Int := entries.foldl (fun a e => a + e.size) 0
  let file_verify_flags : List Int := entries.map (fun _ => (-1 : Int))
  let provide_names := provides.map (fun d => d.dep_name)
  let provide_flags := provides.map senseAsI32
  let provide_versions := provides.map (fun d => d.version)
  let obsolete_names := obsoletes.map (fun d => d.dep_name)
  let obsolete_flags := obsoletes.map senseAsI32
  let obsolete_versions := obsoletes.map (fun d => d.version)
  let require_names := requires.map (fun d => d.dep_name)
  let require_flags := requires.map senseAsI32
  let require_versions := requires.map (fun d => d.version)
  let conflicts_names := conflicts.map (fun d => d.dep_name)
  let conflicts_flags := conflicts.map senseAsI32
  let conflicts_versions := conflicts.map (fun d => d.version)
  let actual_records : List (IndexEntry IndexTag) :=
    [IndexEntry.new IndexTag.RPMTAG_HEADERI18NTABLE 0 (IndexData.StringTag [67]),
     IndexEntry.new IndexTag.RPMTAG_NAME 0 (IndexData.StringTag name),
     IndexEntry.new IndexTag.RPMTAG_VERSION 0 (IndexData.StringTag version),
     IndexEntry.new IndexTag.RPMTAG_RELEASE 0 (IndexData.StringTag release),
     IndexEntry.new IndexTag.RPMTAG_DESCRIPTION 0 (IndexData.StringTag desc),
     IndexEntry.new IndexTag.RPMTAG_SUMMARY 0 (IndexData.StringTag summary),
     IndexEntry.new IndexTag.RPMTAG_SIZE 0 (IndexData.Int32 [combined_file_sizes]),
     IndexEntry.new IndexTag.RPMTAG_LICENSE 0 (IndexData.StringTag license),
     IndexEntry.new IndexTag.RPMTAG_OS 0 (IndexData.StringTag [108, 105, 110, 117, 120]),
     IndexEntry.new IndexTag.RPMTAG_GROUP 0 (IndexData.I18NString
       [[85, 110, 115, 112, 101, 99, 105, 102, 105, 101, 100]]),
     IndexEntry.new IndexTag.RPMTAG_ARCH 0 (IndexData.StringTag arch),
     IndexEntry.new IndexTag.RPMTAG_PAYLOADFORMAT 0 (IndexData.StringTag [99, 112, 105, 111]),
     IndexEntry.new IndexTag.RPMTAG_PAYLOADCOMPRESSOR 0 (IndexData.StringTag [120, 122]),
     IndexEntry.new IndexTag.RPMTAG_PAYLOADFLAGS 0 (IndexData.StringTag [50]),
     IndexEntry.new IndexTag.RPMTAG_FILESIZES 0 (IndexData.Int32 (entries.map (fun e => e.size))),
     IndexEntry.new IndexTag.RPMTAG_FILEMODES 0 (IndexData.Int16 (entries.map (fun e => e.mode))),
     IndexEntry.new IndexTag.RPMTAG_FILERDEVS 0 (IndexData.Int16 (entries.map (fun e => e.file_rdevice))),
     IndexEntry.new IndexTag.RPMTAG_FILEMTIMES 0 (IndexData.Int32 (entries.map (fun e => e.modified_at))),
     IndexEntry.new IndexTag.RPMTAG_FILEDIGESTS 0
       (IndexData.StringArray (entries.map (fun e => e.md5_checksum))),
     IndexEntry.new IndexTag.RPMTAG_FILELINKTOS 0 (IndexData.StringArray (entries.map (fun e => e.link))),
     IndexEntry.new IndexTag.RPMTAG_FILEFLAGS 0 (IndexData.Int32 (entries.map (fun e => e.flag))),
     IndexEntry.new IndexTag.RPMTAG_FILEUSERNAME 0 (IndexData.StringArray (entries.map (fun e => e.user))),
     IndexEntry.new IndexTag.RPMTAG_FILEGROUPNAME 0
       (IndexData.StringArray (entries.map (fun e => e.group))),
     IndexEntry.new IndexTag.RPMTAG_FILEDEVICES 0 (IndexData.Int32 (entries.map (fun e => e.file_device))),
     IndexEntry.new IndexTag.RPMTAG_FILEINODES 0 (IndexData.Int32 (entries.map (fun e => e.inode))),
     IndexEntry.new IndexTag.RPMTAG_DIRINDEXES 0 (IndexData.Int32 (entries.map (fun e => e.dir_index))),
     IndexEntry.new IndexTag.RPMTAG_FILELANGS 0 (IndexData.StringArray (entries.map (fun e => e.lang))),
     IndexEntry.new IndexTag.RPMTAG_FILEDIGESTALGO 0 (IndexData.Int32 [8]),
     IndexEntry.new IndexTag.RPMTAG_FILEVERIFYFLAGS 0 (IndexData.Int32 file_verify_flags),
     IndexEntry.new IndexTag.RPMTAG_BASENAMES 0
       (IndexData.StringArray (entries.map (fun e => e.base_name))),
     IndexEntry.new IndexTag.RPMTAG_DIRNAMES 0 (IndexData.StringArray directories),
     IndexEntry.new IndexTag.RPMTAG_PROVIDENAME 0 (IndexData.StringArray provide_names),
     IndexEntry.new IndexTag.RPMTAG_PROVIDEVERSION 0 (IndexData.StringArray provide_versions),
     IndexEntry.new IndexTag.RPMTAG_PROVIDEFLAGS 0 (IndexData.Int32 provide_flags)]
  let recs1 :=
    if obsolete_flags.isEmpty then actual_records
    else actual_records
      ++ [IndexEntry.new IndexTag.RPMTAG_OBSOLETENAME 0 (IndexData.StringArray obsolete_names),
          IndexEntry.new IndexTag.RPMTAG_OBSOLETEVERSION 0 (IndexData.StringArray obsolete_versions),
          IndexEntry.new IndexTag.RPMTAG_OBSOLETEFLAGS 0 (IndexData.Int32 obsolete_flags)]
  let recs2 :=
    if require_flags.isEmpty then recs1
    else recs1
      ++ [IndexEntry.new IndexTag.RPMTAG_REQUIRENAME 0 (IndexData.StringArray require_names),
          IndexEntry.new IndexTag.RPMTAG_REQUIREVERSION 0 (IndexData.StringArray require_versions),
          IndexEntry.new IndexTag.RPMTAG_REQUIREFLAGS 0 (IndexData.Int32 require_flags)]
  let recs3 :=
    if conflicts_flags.isEmpty then recs2
    else recs2
      ++ [IndexEntry.new IndexTag.RPMTAG_CONFLICTNAME 0 (IndexData.StringArray conflicts_names),
          IndexEntry.new IndexTag.RPMTAG_CONFLICTVERSION 0 (IndexData.StringArray conflicts_versions),
          IndexEntry.new IndexTag.RPMTAG_CONFLICTFLAGS 0 (IndexData.Int32 conflicts_flags)]
  Header.from_entries IndexTag.to_u32 recs3 IndexTag.RPMTAG_HEADERIMMUTABLE

/-- "/bin/sh" as bytes. -/
def binShBytes : List Nat := [47, 98, 105, 110, 47, 115, 104]

/-- The dependency set-up and main-header construction of `RPMBuilder::build`
(lines 1986-2010): append `requires "/bin/sh"` (ANY) and the two implicit
provides `name = version` and `name(arch) = version` (EQUAL), then call
`new_header` with the description doubling as the summary. -/
def builder_main_header (name version release desc arch license : List Nat)
    (rpm_file_entries : List RPMFileEntry) (directories : List (List Nat))
    (requires provides obsoletes conflicts : List Dependency) : Header IndexTag :=
  Header.new_header name version release desc desc arch license
    rpm_file_entries directories
    (requires ++ [Dependency.any binShBytes])
    (provides ++ [Dependency.eq name version,
                  Dependency.eq (name ++ [40] ++ arch ++ [41]) version])
    obsoletes conflicts

/-! ## Claim C5 -/

/-- C5: whatever the caller's `requires` list, a build with empty `provides`,
`obsoletes` and `conflicts` has a main header that still carries
`RPMTAG_PROVIDENAME` / `RPMTAG_PROVIDEVERSION` / `RPMTAG_PROVIDEFLAGS` with
exactly the two implicit provides `name = version` and `name(arch) = version`
(EQUAL sense = 8); `RPMTAG_REQUIRENAME` contains "/bin/sh", appended with ANY
sense (final `RPMTAG_REQUIREFLAGS` element 0); and `RPMTAG_OBSOLETENAME` and
`RPMTAG_CONFLICTNAME` are absent. -/
theorem c5_implicit_dependencies (name version release desc arch license : List Nat)
    (entries : List RPMFileEntry) (directories : List (List Nat))
    (requires : List Dependency) :
    ((builder_main_header name version release desc arch license entries directories
        requires [] [] []).find_entry IndexTag.RPMTAG_PROVIDENAME).map (fun e => e.data)
      = some (IndexData.StringArray [name, name ++ [40] ++ arch ++ [41]]) ∧
    ((builder_main_header name version release desc arch license entries directories
        requires [] [] []).find_entry IndexTag.RPMTAG_PROVIDEVERSION).map (fun e => e.data)
      = some (IndexData.StringArray [version, version]) ∧
    ((builder_main_header name version release desc arch license entries directories
        requires [] [] []).find_entry IndexTag.RPMTAG_PROVIDEFLAGS).map (fun e => e.data)
      = some (IndexData.Int32 [8, 8]) ∧
    ((builder_main_header name version release desc arch license entries directories
        requires [] [] []).find_entry IndexTag.RPMTAG_REQUIRENAME).map (fun e => e.data)
      = some (IndexData.StringArray
          ((requires ++ [Dependency.any binShBytes]).map (fun d => d.dep_name))) ∧
    binShBytes ∈ (requires ++ [Dependency.any binShBytes]).map (fun d => d.dep_name) ∧
    ((builder_main_header name version release desc arch license entries directories
        requires [] [] []).find_entry IndexTag.RPMTAG_REQUIREFLAGS).map (fun e => e.data)
      = some (IndexData.Int32 ((requires ++ [Dependency.any binShBytes]).map senseAsI32)) ∧
    ((requires ++ [Dependency.any binShBytes]).map senseAsI32).getLast? = some 0 ∧
    ((builder_main_header name version release desc arch license entries directories
        requires [] [] []).find_entry IndexTag.RPMTAG_OBSOLETENAME) = none ∧
    ((builder_main_header name version release desc arch license entries directories
        requires [] [] []).find_entry IndexTag.RPMTAG_CONFLICTNAME) = none := by
  have hsense : senseAsI32 (Dependency.any binShBytes) = 0 := by decide
  have hmem : ∀ l : List Dependency,
      binShBytes ∈ (l ++ [Dependency.any binShBytes]).map (fun d => d.dep_name) := by
    intro l
    rw [List.map_append]
    refine List.mem_append_right _ ?_
    simp [Dependency.any]
  have hlast : ∀ l : List Dependency,
      ((l ++ [Dependency.any binShBytes]).map senseAsI32).getLast? = some 0 := by
    intro l
    rw [List.map_append]
    simp [hsense]
  rcases requires with _ | ⟨r, rs⟩ <;>
    exact ⟨rfl, rfl, rfl, rfl, hmem _, rfl, hlast _, rfl, rfl⟩

/-! ## `Lead` (claim C8) -/

/-- The 4-byte lead magic `ED AB EE DB`. -/
def RPM_MAGIC : List Nat := [237, 171, 238, 219]

/-- `struct Lead`. -/
structure Lead where
  magic : List Nat
  major : Nat
  minor : Nat
  package_type : Nat
  arch : Nat
  name : List Nat
  os : Nat
  signature_type : Nat
  reserved : List Nat
deriving DecidableEq

/-- `Lead::new`: caps `name_size` at 65, then copies bytes over the range
`0..name_size - 1` — EXCLUSIVE of index `name_size - 1` — into the zeroed
66-byte field.  For the empty name, `name_size - 1` underflows `usize` and
the first byte index panics, modelled as `none`. -/
def Lead.new (name : List Nat) : Option Lead :=
  let name_size := if name.length > 65 then 65 else name.length
  if name.length = 0 then none
  else some {
    magic := RPM_MAGIC, major := 3, minor := 0, package_type := 0, arch := 0,
    name := name.take (name_size - 1) ++ List.replicate (66 - (name_size - 1)) 0,
    os := 1, signature_type := 5, reserved := List.replicate 16 0 }

/-- C8 (code bug): `Lead::new` for the name "test" produces the claimed
magic `ED AB EE DB`, version (3,0), os 1 and signature type 5, but its name
field holds only "tes" followed by NULs — the copy loop runs to
`name_size - 1` and drops the final byte of the name, so the claim that the
entire (truncated) name is copied into the field is false. -/
theorem c8_lead_name_truncated :
    Lead.new [116, 101, 115, 116]
      = some { magic := [237, 171, 238, 219], major := 3, minor := 0,
               package_type := 0, arch := 0,
               name := [116, 101, 115] ++ List.replicate 63 0,
               os := 1, signature_type := 5, reserved := List.replicate 16 0 } ∧
    ([116, 101, 115] ++ List.replicate 63 0 : List Nat)
      ≠ [116, 101, 115, 116] ++ List.replicate 62 0 := by
  refine ⟨by decide, by decide⟩

/-! ## Claim C9 -/

/-- C9 (amended): parsing a 16-byte `IndexHeader` fails precisely when byte 0
is not `0x8E`, byte 1 is not `0xAD`, or the version byte is not 1 — the third
magic byte is never compared (the source's check loop is `for i in 0..2`); an
input passing those checks yields `num_entries` and `header_size` read
big-endian from bytes 8-11 and 12-15. -/
theorem c9_index_header_checks
    (b0 b1 b2 b3 b4 b5 b6 b7 b8 b9 b10 b11 b12 b13 b14 b15 : Nat) :
    IndexHeader.parse [b0, b1, b2, b3, b4, b5, b6, b7, b8, b9, b10, b11, b12,
        b13, b14, b15]
      = if b0 = 142 ∧ b1 = 173 ∧ b3 = 1 then
          some { magic := [b0, b1, b2], version := 1,
                 num_entries := bytesToNatBE [b8, b9, b10, b11],
                 header_size := bytesToNatBE [b12, b13, b14, b15] }
        else none := by
  by_cases h0 : b0 = 142 <;> by_cases h1 : b1 = 173 <;> by_cases h3 : b3 = 1 <;>
    simp [IndexHeader.parse, h0, h1, h3]

/-- C9 counterexample: a 16-byte input whose third magic byte is `0x00`
(instead of `0xE8`) parses successfully, refuting the claim that parsing
fails whenever any of the first three bytes differs from `8E AD E8`. -/
theorem c9_third_magic_byte_unchecked :
    IndexHeader.parse [142, 173, 0, 1, 0, 0, 0, 0, 0, 0, 0, 2, 0, 0, 0, 5]
      = some { magic := [142, 173, 0], version := 1, num_entries := 2,
               header_size := 5 } := by
  decide

/-! ## Builder path handling (claims C4 and C10)

The destination paths handed to the builder are Unix path strings, modelled
as byte lists ('/' = 47, '.' = 46).  The helpers below model the
`std::path::Path` operations the source uses (`parent`, `file_name`,
`starts_with(".")`, `ends_with("/")`) for such strings. -/

/-- Strip trailing '/' bytes (how `Path` normalizes a trailing separator). -/
def stripTrailSlash (s : List Nat) : List Nat :=
  (s.reverse.dropWhile (fun c => c = 47)).reverse

/-- Drop the bytes of the final path component, keeping the separator. -/
def dropLastComp (s : List Nat) : List Nat :=
  (s.reverse.dropWhile (fun c => c ≠ 47)).reverse

/-- `Path::parent()` rendered back to a string (`to_string_lossy`): `none`
for the empty or root path; otherwise the path minus its final component and
the separator before it, except that the root parent stays "/". -/
def parentStr (s : List Nat) : Option (List Nat) :=
  let t := stripTrailSlash s
  if t = [] then none
  else
    let u := dropLastComp t
    if u = [47] then some [47]
    else some (stripTrailSlash u)

/-- `Path::file_name()` (the final normal component). -/
def fileName (s : List Nat) : Option (List Nat) :=
  let t := stripTrailSlash s
  if t = [] then none
  else
    let base := (t.reverse.takeWhile (fun c => c ≠ 47)).reverse
    if base = [46] ∨ base = [46, 46] then none else some base

/-- `Path::starts_with(".")`: the first component is `CurDir`, i.e. the
first raw segment (up to the first '/') is exactly ".". -/
def pathStartsWithDot (s : List Nat) : Bool :=
  decide (s.takeWhile (fun c => c ≠ 47) = [46])

/-- `Path::ends_with("/")`: a component-wise suffix test against the
absolute path "/", true only when the whole path is the root. -/
def pathEndsWithSlash (s : List Nat) : Bool :=
  decide (s ≠ []) && s.all (fun c => c = 47)

/-- `append_dir_entry` (source lines 2074-2109): strip a leading ".",
guarantee a trailing "/", take the parent, skip "/" and missing parents,
push `parent ++ "/"` if not already present. -/
def append_dir_entry (raw_path : List Nat) (directories : List (List Nat)) :
    List (List Nat) :=
  let sanitized :=
    if pathStartsWithDot raw_path then
      if ¬ pathEndsWithSlash raw_path then raw_path.drop 1 ++ [47]
      else raw_path.drop 1
    else
      if ¬ pathEndsWithSlash raw_path then raw_path ++ [47]
      else raw_path
  match parentStr sanitized with
  | none => directories
  | some parent =>
      if parent = [47] then directories
      else
        let full_path := parent ++ [47]
        if directories.any (fun e => e == full_path) then directories
        else directories ++ [full_path]

/-- Rust `Iterator::position`. -/
def listPosition (p : List Nat → Bool) : List (List Nat) → Option Nat
  | [] => none
  | x :: xs => if p x then some 0 else (listPosition p xs).map (fun i => i + 1)

/-- The `dir_index` computation of `RPMBuilder::build` (lines 1900-1923):
the parent of the raw destination, `format!("{}/", parent)`, then the
`position` of `&parent_dir[1..]` among the collected directory names.
`none` covers both `return Err` paths (no parent / directory not found). -/
def computeDirIndex (dest : List Nat) (directories : List (List Nat)) : Option Nat :=
  match parentStr dest with
  | none => none
  | some parentDirPath =>
      let parent_dir := parentDirPath ++ [47]
      listPosition (fun item => item == parent_dir.drop 1) directories

/-- Lexicographic byte order on strings (Rust `String` ordering). -/
def lexLe : List Nat → List Nat → Bool
  | [], _ => true
  | _ :: _, [] => false
  | a :: al, b :: bl => if a < b then true else if b < a then false else lexLe al bl

def insertSorted (x : List Nat) : List (List Nat) → List (List Nat)
  | [] => [x]
  | y :: ys => if lexLe x y then x :: y :: ys else y :: insertSorted x ys

/-- `Vec::sort` (insertion sort — same elements, ascending order). -/
def sortStrings (l : List (List Nat)) : List (List Nat) :=
  l.foldr insertSorted []

/-- The directory table of `RPMBuilder::build`: `append_dir_entry` over
every destination (in BTreeMap key order), then `sort()`. -/
def builder_directories (dests : List (List Nat)) : List (List Nat) :=
  sortStrings (dests.foldl (fun dirs d => append_dir_entry d dirs) [])

/-- "/s1/s2/.../sn" from the list of segments. -/
def renderSegs (segs : List (List Nat)) : List Nat :=
  segs.foldr (fun s acc => 47 :: (s ++ acc)) []

/-- "./s1/.../sn". -/
def dotPath (segs : List (List Nat)) : List Nat := 46 :: renderSegs segs

/-- A well-formed path segment: nonempty, no '/', not "." and not "..". -/
def wfSeg (s : List Nat) : Prop := s ≠ [] ∧ 47 ∉ s ∧ s ≠ [46] ∧ s ≠ [46, 46]

instance : ∀ s, Decidable (wfSeg s) := fun s => by unfold wfSeg; infer_instance

/-- A destination accepted by the modelled path reasoning: "./"-prefixed or
absolute, with well-formed segments. -/
def wfDest (d : List Nat) : Prop :=
  ∃ ss b, (d = dotPath (ss ++ [b]) ∨ d = renderSegs (ss ++ [b]))
    ∧ ∀ s ∈ ss ++ [b], wfSeg s

theorem dropWhile_append_of_all (p : Nat → Bool) (l1 l2 : List Nat)
    (h : ∀ x ∈ l1, p x = true) :
    (l1 ++ l2).dropWhile p = l2.dropWhile p := by
  induction l1 with
  | nil => rfl
  | cons a t ih =>
      rw [List.cons_append, List.dropWhile_cons_of_pos (h a (by simp))]
      exact ih (fun x hx => h x (by simp [hx]))

theorem stripTrailSlash_append_seg (u b : List Nat) (hb : b ≠ []) (hb47 : 47 ∉ b) :
    stripTrailSlash (u ++ b) = u ++ b := by
  rw [stripTrailSlash, List.reverse_append]
  have hdw : (b.reverse ++ u.reverse).dropWhile (fun c => c = 47)
      = b.reverse ++ u.reverse := by
    cases hrev : b.reverse with
    | nil => exact absurd (by simpa using congrArg List.reverse hrev) hb
    | cons c cs =>
        have hc : c ∈ b := List.mem_reverse.mp (by rw [hrev]; simp)
        have hcne : c ≠ 47 := fun hh => hb47 (hh ▸ hc)
        rw [List.cons_append, List.dropWhile_cons_of_neg (by simpa using hcne)]
  rw [hdw]
  simp

theorem stripTrailSlash_concat_slash (x : List Nat) :
    stripTrailSlash (x ++ [47]) = stripTrailSlash x := by
  rw [stripTrailSlash, stripTrailSlash, List.reverse_append]
  simp [List.dropWhile_cons]

theorem dropLastComp_append_seg (u b : List Nat) (hb47 : 47 ∉ b) :
    dropLastComp (u ++ b) = dropLastComp u := by
  rw [dropLastComp, dropLastComp, List.reverse_append,
    dropWhile_append_of_all _ _ _ (fun x hx => by
      have hxb : x ∈ b := List.mem_reverse.mp hx
      have hxne : x ≠ 47 := fun hh => hb47 (hh ▸ hxb)
      simpa using hxne)]

theorem dropLastComp_concat_slash (x : List Nat) :
    dropLastComp (x ++ [47]) = x ++ [47] := by
  rw [dropLastComp, List.reverse_append]
  have : (([47] : List Nat).reverse ++ x.reverse).dropWhile (fun c => c ≠ 47)
      = 47 :: x.reverse := by
    simp [List.dropWhile_cons]
  rw [this]
  simp

theorem renderSegs_append_one (ss : List (List Nat)) (b : List Nat) :
    renderSegs (ss ++ [b]) = renderSegs ss ++ 47 :: b := by
  induction ss with
  | nil => simp [renderSegs]
  | cons s t ih => simp only [renderSegs, List.cons_append, List.foldr_cons] at ih ⊢
                   rw [ih]
                   simp

theorem stripTrailSlash_render (ss : List (List Nat)) (h : ∀ s ∈ ss, wfSeg s) :
    stripTrailSlash (renderSegs ss) = renderSegs ss := by
  rcases List.eq_nil_or_concat ss with rfl | ⟨ss', b, rfl⟩
  · rfl
  · simp only [List.concat_eq_append] at h ⊢
    rw [renderSegs_append_one]
    have hb := h b (by simp)
    rw [List.append_cons]
    exact stripTrailSlash_append_seg _ _ hb.1 hb.2.1

theorem stripTrailSlash_dotRender (ss : List (List Nat)) (h : ∀ s ∈ ss, wfSeg s) :
    stripTrailSlash (46 :: renderSegs ss) = 46 :: renderSegs ss := by
  rcases List.eq_nil_or_concat ss with rfl | ⟨ss', b, rfl⟩
  · show stripTrailSlash ([] ++ [46]) = [46]
    rw [stripTrailSlash_append_seg [] [46] (by simp) (by simp)]
    rfl
  · simp only [List.concat_eq_append] at h ⊢
    have hb := h b (by simp)
    rw [renderSegs_append_one]
    have hshape : 46 :: (renderSegs ss' ++ 47 :: b)
        = ((46 :: renderSegs ss') ++ [47]) ++ b := by simp
    rw [hshape]
    exact stripTrailSlash_append_seg _ _ hb.1 hb.2.1

theorem parentStr_eq (s : List Nat) :
    parentStr s
      = if stripTrailSlash s = [] then none
        else if dropLastComp (stripTrailSlash s) = [47] then some [47]
        else some (stripTrailSlash (dropLastComp (stripTrailSlash s))) := rfl

theorem parentStr_dotPath (ss : List (List Nat)) (b : List Nat)
    (h : ∀ s ∈ ss ++ [b], wfSeg s) :
    parentStr (dotPath (ss ++ [b])) = some (46 :: renderSegs ss) := by
  have hb : wfSeg b := h b (by simp)
  have hss : ∀ s ∈ ss, wfSeg s := fun s hs => h s (by simp [hs])
  have hshape : dotPath (ss ++ [b]) = ((46 :: renderSegs ss) ++ [47]) ++ b := by
    rw [dotPath, renderSegs_append_one]
    simp
  have ht : stripTrailSlash (dotPath (ss ++ [b])) = dotPath (ss ++ [b]) := by
    rw [hshape]
    exact stripTrailSlash_append_seg _ _ hb.1 hb.2.1
  have hu : dropLastComp (dotPath (ss ++ [b])) = (46 :: renderSegs ss) ++ [47] := by
    rw [hshape, dropLastComp_append_seg _ _ hb.2.1, dropLastComp_concat_slash]
  rw [parentStr_eq, ht, hu]
  rw [if_neg (by rw [hshape]; simp), if_neg (by simp)]
  rw [stripTrailSlash_concat_slash, stripTrailSlash_dotRender ss hss]

theorem renderSegs_cons_shape (s : List Nat) (t : List (List Nat)) :
    renderSegs (s :: t) = 47 :: (s ++ renderSegs t) := rfl

theorem parentStr_absPath_cons (s : List Nat) (ss : List (List Nat)) (b : List Nat)
    (h : ∀ x ∈ (s :: ss) ++ [b], wfSeg x) :
    parentStr (renderSegs ((s :: ss) ++ [b])) = some (renderSegs (s :: ss)) := by
  have hb : wfSeg b := h b (by simp)
  have hss : ∀ x ∈ s :: ss, wfSeg x := fun x hx => h x (by simp [List.mem_cons] at hx ⊢; tauto)
  have hshape : renderSegs ((s :: ss) ++ [b]) = (renderSegs (s :: ss) ++ [47]) ++ b := by
    rw [renderSegs_append_one]
    simp
  have ht : stripTrailSlash (renderSegs ((s :: ss) ++ [b]))
      = renderSegs ((s :: ss) ++ [b]) :=
    stripTrailSlash_render _ h
  have hu : dropLastComp (renderSegs ((s :: ss) ++ [b]))
      = renderSegs (s :: ss) ++ [47] := by
    rw [hshape, dropLastComp_append_seg _ _ hb.2.1, dropLastComp_concat_slash]
  rw [parentStr_eq, ht, hu]
  rw [if_neg (by rw [hshape]; simp [renderSegs_cons_shape]),
    if_neg (by simp [renderSegs_cons_shape])]
  rw [stripTrailSlash_concat_slash, stripTrailSlash_render _ hss]

theorem parentStr_absPath_nil (b : List Nat) (hb : wfSeg b) :
    parentStr (renderSegs [b]) = some [47] := by
  have hshape : renderSegs [b] = ([] ++ [47]) ++ b := by
    simp [renderSegs_cons_shape, renderSegs]
  have ht : stripTrailSlash (renderSegs [b]) = renderSegs [b] :=
    stripTrailSlash_render _ (by intro x hx; simp at hx; subst hx; exact hb)
  have hu : dropLastComp (renderSegs [b]) = [47] := by
    rw [hshape, dropLastComp_append_seg _ _ hb.2.1, dropLastComp_concat_slash]
    rfl
  rw [parentStr_eq, ht, hu]
  rw [if_neg (by rw [hshape]; simp), if_pos rfl]

theorem takeWhile_append_stop (p : Nat → Bool) (l1 : List Nat) (c : Nat)
    (l2 : List Nat) (h1 : ∀ x ∈ l1, p x = true) (h2 : p c = false) :
    (l1 ++ c :: l2).takeWhile p = l1 := by
  induction l1 with
  | nil => simp [List.takeWhile_cons, h2]
  | cons a t ih =>
      rw [List.cons_append, List.takeWhile_cons_of_pos (h1 a (by simp))]
      rw [ih (fun x hx => h1 x (by simp [hx]))]

theorem fileName_dotPath (ss : List (List Nat)) (b : List Nat)
    (h : ∀ s ∈ ss ++ [b], wfSeg s) :
    fileName (dotPath (ss ++ [b])) = some b := by
  have hb : wfSeg b := h b (by simp)
  have hshape : dotPath (ss ++ [b]) = ((46 :: renderSegs ss) ++ [47]) ++ b := by
    rw [dotPath, renderSegs_append_one]
    simp
  have ht : stripTrailSlash (dotPath (ss ++ [b])) = dotPath (ss ++ [b]) := by
    rw [hshape]
    exact stripTrailSlash_append_seg _ _ hb.1 hb.2.1
  have hrev : (dotPath (ss ++ [b])).reverse
      = b.reverse ++ 47 :: (46 :: renderSegs ss).reverse := by
    rw [hshape]
    simp
  have htake : ((dotPath (ss ++ [b])).reverse.takeWhile (fun c => c ≠ 47))
      = b.reverse := by
    rw [hrev]
    refine takeWhile_append_stop _ _ _ _ (fun x hx => ?_) (by simp)
    have hxb : x ∈ b := List.mem_reverse.mp hx
    have hxne : x ≠ 47 := fun hh => hb.2.1 (hh ▸ hxb)
    simpa using hxne
  rw [fileName]
  simp only [ht, htake, List.reverse_reverse]
  rw [if_neg (by rw [hshape]; simp), if_neg (by push_neg; exact ⟨hb.2.2.1, hb.2.2.2⟩)]

theorem parentStr_concat_slash (x : List Nat) :
    parentStr (x ++ [47]) = parentStr x := by
  rw [parentStr_eq, parentStr_eq, stripTrailSlash_concat_slash]

theorem renderSegs_head (ss : List (List Nat)) (b : List Nat) :
    ∃ r, renderSegs (ss ++ [b]) = 47 :: r := by
  cases ss with
  | nil => exact ⟨b ++ [], rfl⟩
  | cons s t => exact ⟨s ++ renderSegs (t ++ [b]), rfl⟩

theorem mem_renderSegs_last (ss : List (List Nat)) (b : List Nat) (x : Nat)
    (hx : x ∈ b) : x ∈ renderSegs (ss ++ [b]) := by
  induction ss with
  | nil => simp [renderSegs, hx]
  | cons s t ih =>
      have : (s :: t) ++ [b] = s :: (t ++ [b]) := rfl
      rw [this, renderSegs_cons_shape]
      simp only [List.mem_cons, List.mem_append]
      tauto

theorem pathEndsWithSlash_render (ss : List (List Nat)) (b : List Nat)
    (hb : wfSeg b) (d : List Nat)
    (hd : d = dotPath (ss ++ [b]) ∨ d = renderSegs (ss ++ [b])) :
    pathEndsWithSlash d = false := by
  rcases hb' : b with _ | ⟨b0, bt⟩
  · exact absurd hb' hb.1
  have hb0 : b0 ≠ 47 := fun hc => hb.2.1 (by rw [hb', hc]; simp)
  have hmem : b0 ∈ d := by
    have hr : b0 ∈ renderSegs (ss ++ [b]) :=
      mem_renderSegs_last ss b b0 (by rw [hb']; simp)
    rcases hd with rfl | rfl
    · exact List.mem_cons_of_mem _ hr
    · exact hr
  rw [pathEndsWithSlash]
  apply Bool.and_eq_false_iff.mpr
  right
  apply Bool.eq_false_iff.mpr
  intro hc
  have := List.all_eq_true.mp hc b0 hmem
  simp at this
  exact hb0 this

theorem parentStr_render_slash (ss : List (List Nat)) (b : List Nat)
    (hwf : ∀ s ∈ ss ++ [b], wfSeg s) :
    parentStr (renderSegs (ss ++ [b]) ++ [47])
      = if ss = [] then some [47] else some (renderSegs ss) := by
  rw [parentStr_concat_slash]
  cases ss with
  | nil => simpa using parentStr_absPath_nil b (hwf b (by simp))
  | cons s t => simpa using parentStr_absPath_cons s t b hwf

theorem append_dir_entry_render (ss : List (List Nat)) (b : List Nat)
    (hwf : ∀ s ∈ ss ++ [b], wfSeg s) (dirs : List (List Nat)) (d : List Nat)
    (hd : d = dotPath (ss ++ [b]) ∨ d = renderSegs (ss ++ [b])) :
    append_dir_entry d dirs =
      if ss = [] then dirs
      else if renderSegs ss ++ [47] ∈ dirs then dirs
      else dirs ++ [renderSegs ss ++ [47]] := by
  have hb : wfSeg b := hwf b (by simp)
  obtain ⟨r, hr⟩ := renderSegs_head ss b
  have hends : pathEndsWithSlash d = false := pathEndsWithSlash_render ss b hb d hd
  have hsan :
      (if pathStartsWithDot d then
        if ¬ pathEndsWithSlash d then d.drop 1 ++ [47] else d.drop 1
      else
        if ¬ pathEndsWithSlash d then d ++ [47] else d)
      = renderSegs (ss ++ [b]) ++ [47] := by
    rcases hd with rfl | rfl
    · have hstart : pathStartsWithDot (dotPath (ss ++ [b])) = true := by
        rw [pathStartsWithDot, dotPath, hr]
        simp [List.takeWhile_cons]
      rw [hstart, hends]
      simp [dotPath]
    · have hstart : pathStartsWithDot (renderSegs (ss ++ [b])) = false := by
        rw [pathStartsWithDot, hr]
        simp [List.takeWhile_cons]
      rw [hstart, hends]
      simp
  rw [append_dir_entry]
  simp only [hsan, parentStr_render_slash ss b hwf]
  cases ss with
  | nil => simp
  | cons s t =>
      have hs : wfSeg s := hwf s (by simp)
      have hne : renderSegs (s :: t) ≠ [47] := by
        rw [renderSegs_cons_shape]
        intro hc
        have h2 : s ++ renderSegs t = ([] : List Nat) := by
          injection hc
        exact hs.1 (List.append_eq_nil.mp h2).1
      simp only [List.cons_ne_self, if_neg (by simp : ¬ (s :: t : List (List Nat)) = [])]
      rw [if_neg hne]
      have hany : (dirs.any (fun e => e == renderSegs (s :: t) ++ [47]) = true)
          ↔ renderSegs (s :: t) ++ [47] ∈ dirs := by
        simp [List.any_eq_true]
      simp only [hany]

theorem mem_append_dir_entry (d x : List Nat) (dirs : List (List Nat))
    (hx : x ∈ dirs) : x ∈ append_dir_entry d dirs := by
  rw [append_dir_entry]
  cases parentStr
      (if pathStartsWithDot d then
        if ¬ pathEndsWithSlash d then d.drop 1 ++ [47] else d.drop 1
      else
        if ¬ pathEndsWithSlash d then d ++ [47] else d) with
  | none => exact hx
  | some parent =>
      dsimp only
      split
      · exact hx
      · split
        · exact hx
        · exact List.mem_append_left _ hx

theorem mem_foldl_dirs (dests : List (List Nat)) (dirs : List (List Nat))
    (x : List Nat) (hx : x ∈ dirs) :
    x ∈ dests.foldl (fun acc d => append_dir_entry d acc) dirs := by
  induction dests generalizing dirs with
  | nil => exact hx
  | cons d t ih => exact ih _ (mem_append_dir_entry d x dirs hx)

theorem parent_mem_foldl (dests : List (List Nat)) (dirs : List (List Nat))
    (ss : List (List Nat)) (b : List Nat)
    (hwf : ∀ s ∈ ss ++ [b], wfSeg s) (hne : ss ≠ [])
    (d : List Nat) (hd : d = dotPath (ss ++ [b]) ∨ d = renderSegs (ss ++ [b]))
    (hmem : d ∈ dests) :
    renderSegs ss ++ [47]
      ∈ dests.foldl (fun acc e => append_dir_entry e acc) dirs := by
  induction dests generalizing dirs with
  | nil => cases hmem
  | cons e t ih =>
      rcases List.mem_cons.mp hmem with he | ht
      · subst he
        rw [List.foldl_cons]
        apply mem_foldl_dirs
        show renderSegs ss ++ [47] ∈ append_dir_entry d dirs
        rw [append_dir_entry_render ss b hwf dirs d hd, if_neg hne]
        split
        · assumption
        · simp
      · rw [List.foldl_cons]
        exact ih _ ht

theorem head_foldl_dirs (dests : List (List Nat))
    (hall : ∀ d ∈ dests, wfDest d) (dirs : List (List Nat))
    (hdirs : ∀ x ∈ dirs, ∃ r, x = 47 :: r) :
    ∀ x ∈ dests.foldl (fun acc d => append_dir_entry d acc) dirs,
      ∃ r, x = 47 :: r := by
  induction dests generalizing dirs with
  | nil => exact hdirs
  | cons d t ih =>
      apply ih (fun e he => hall e (List.mem_cons_of_mem _ he))
      intro x hx
      obtain ⟨ss, b, hd, hwf⟩ := hall d (List.mem_cons_self _ _)
      change x ∈ append_dir_entry d dirs at hx
      rw [append_dir_entry_render ss b hwf dirs d hd] at hx
      by_cases hss : ss = []
      · rw [if_pos hss] at hx
        exact hdirs x hx
      · rw [if_neg hss] at hx
        split at hx
        · exact hdirs x hx
        · rcases List.mem_append.mp hx with h | h
          · exact hdirs x h
          · simp only [List.mem_singleton] at h
            subst h
            rcases hss' : ss with _ | ⟨s, ss'⟩
            · exact absurd hss' hss
            · exact ⟨s ++ renderSegs ss' ++ [47], by simp [renderSegs_cons_shape]⟩

theorem mem_insertSorted (x y : List Nat) (l : List (List Nat)) :
    y ∈ insertSorted x l ↔ y = x ∨ y ∈ l := by
  induction l with
  | nil => simp [insertSorted]
  | cons a t ih =>
      rw [insertSorted]
      split
      · simp [List.mem_cons]
      · simp only [List.mem_cons, ih]
        tauto

theorem mem_sortStrings (x : List Nat) (l : List (List Nat)) :
    x ∈ sortStrings l ↔ x ∈ l := by
  induction l with
  | nil => simp [sortStrings]
  | cons a t ih =>
      rw [sortStrings, List.foldr_cons]
      rw [show t.foldr insertSorted [] = sortStrings t from rfl]
      rw [mem_insertSorted, ih]
      simp [List.mem_cons]

theorem listPosition_eq_none (p : List Nat → Bool) (l : List (List Nat))
    (h : ∀ x ∈ l, p x = false) : listPosition p l = none := by
  induction l with
  | nil => rfl
  | cons a t ih =>
      rw [listPosition, if_neg (by simp [h a (List.mem_cons_self _ _)]),
        ih (fun x hx => h x (List.mem_cons_of_mem _ hx))]
      rfl

theorem listPosition_some (p : List Nat → Bool) (l : List (List Nat)) (i : Nat)
    (h : listPosition p l = some i) (x : List Nat) (hx : l[i]? = some x) :
    p x = true := by
  induction l generalizing i with
  | nil => cases h
  | cons a t ih =>
      rw [listPosition] at h
      by_cases hpa : p a = true
      · rw [if_pos hpa] at h
        injection h with h
        subst h
        rw [List.getElem?_cons_zero] at hx
        injection hx with hx
        subst hx
        exact hpa
      · rw [if_neg hpa] at h
        cases ht : listPosition p t with
        | none => rw [ht] at h; cases h
        | some j =>
            rw [ht] at h
            injection h with h
            subst h
            rw [List.getElem?_cons_succ] at hx
            exact ih j ht hx

theorem computeDirIndex_parent (dest p : List Nat) (dirs : List (List Nat))
    (h : parentStr dest = some p) :
    computeDirIndex dest dirs
      = listPosition (fun item => item == (p ++ [47]).drop 1) dirs := by
  rw [computeDirIndex, h]

/-- C4: the spec's claim that `dirnames[dir_index] ++ base_name` reconstructs
the original destination fails: because `build` looks up `&parent_dir[1..]`
(the parent path with its first byte removed) in the directory table, the
concatenation reconstructs the destination with its leading byte (the `.` of
a `./`-prefixed destination) removed.  For a destination `./s1/.../sn/b`
whose lookup succeeds, the indexed directory concatenated with the base name
equals the destination minus its first character, never the destination
itself. -/
theorem c4_directory_indirection (ss : List (List Nat)) (b : List Nat)
    (dirs : List (List Nat)) (i : Nat) (x : List Nat)
    (hwf : ∀ s ∈ ss ++ [b], wfSeg s)
    (hidx : computeDirIndex (dotPath (ss ++ [b])) dirs = some i)
    (hget : dirs[i]? = some x) :
    fileName (dotPath (ss ++ [b])) = some b ∧
      x ++ b = (dotPath (ss ++ [b])).drop 1 := by
  refine ⟨fileName_dotPath ss b hwf, ?_⟩
  rw [computeDirIndex_parent _ _ _ (parentStr_dotPath ss b hwf)] at hidx
  have hp := listPosition_some _ dirs i hidx x hget
  have hx : x = renderSegs ss ++ [47] := by simpa using hp
  subst hx
  rw [dotPath]
  simp [renderSegs_append_one]

/-- C4 counterexample: for the single destination "./a/b" the builder's
directory table is ["/a/"]; the dir-index lookup succeeds with index 0, the
base name is "b", yet `dirnames[0] ++ base_name` is "/a/b", not the original
destination "./a/b". -/
theorem c4_counterexample :
    builder_directories [[46, 47, 97, 47, 98]] = [[47, 97, 47]] ∧
    computeDirIndex [46, 47, 97, 47, 98] [[47, 97, 47]] = some 0 ∧
    fileName [46, 47, 97, 47, 98] = some [98] ∧
    [47, 97, 47] ++ [98] ≠ [46, 47, 97, 47, 98] := by decide

theorem c4_directory_indirection_witness :
    (∀ s ∈ ([[97]] : List (List Nat)) ++ [[98]], wfSeg s) ∧
    computeDirIndex (dotPath ([[97]] ++ [[98]])) [[47, 97, 47]] = some 0 ∧
    ([[47, 97, 47]] : List (List Nat))[0]? = some [47, 97, 47] ∧
    (fileName (dotPath ([[97]] ++ [[98]])) = some [98] ∧
      [47, 97, 47] ++ [98] = (dotPath ([[97]] ++ [[98]])).drop 1) :=
  ⟨by decide, by decide, by decide,
    c4_directory_indirection [[97]] [98] [[47, 97, 47]] 0 [47, 97, 47]
      (by decide) (by decide) (by decide)⟩

/-- C10 (amended): over destination sets whose members are all `./`-prefixed
or absolute with well-formed segments, an absolute destination
`/s1/.../sn/b` with n ≥ 1 does have its parent directory "/s1/.../sn/"
collected into the directory table, yet the dir-index lookup fails (so
`build` returns an error for it): the lookup compares the parent with its
first byte removed, "s1/.../sn/", and every stored directory starts with
'/'.  The claim's stronger reading — that ONLY "."-prefixed destinations can
ever match — is false, see the counterexample. -/
theorem c10_absolute_dest_lookup (dests : List (List Nat))
    (ss : List (List Nat)) (b : List Nat)
    (hall : ∀ d ∈ dests, wfDest d)
    (hwf : ∀ s ∈ ss ++ [b], wfSeg s)
    (hne : ss ≠ [])
    (hmem : renderSegs (ss ++ [b]) ∈ dests) :
    renderSegs ss ++ [47] ∈ builder_directories dests ∧
      computeDirIndex (renderSegs (ss ++ [b])) (builder_directories dests)
        = none := by
  constructor
  · rw [builder_directories, mem_sortStrings]
    exact parent_mem_foldl dests [] ss b hwf hne _ (Or.inr rfl) hmem
  · cases ss with
    | nil => exact absurd rfl hne
    | cons s ss' =>
        rw [computeDirIndex_parent _ _ _ (parentStr_absPath_cons s ss' b hwf)]
        apply listPosition_eq_none
        intro x hx
        rw [builder_directories, mem_sortStrings] at hx
        obtain ⟨r, hr⟩ := head_foldl_dirs dests hall [] (by simp) x hx
        subst hr
        have hs : wfSeg s := hwf s (by simp)
        cases hcs : s with
        | nil => exact absurd hcs hs.1
        | cons s0 st =>
            subst hcs
            have hs0 : s0 ≠ 47 := fun hc => hs.2.1 (hc ▸ List.mem_cons_self _ _)
            show ((47 :: r) == _) = false
            apply beq_eq_false_iff_ne.mpr
            rw [renderSegs_cons_shape]
            simp only [List.cons_append, List.drop_one, List.tail_cons]
            intro hc
            injection hc with h1 h2
            exact hs0 h1.symm

/-- C10 counterexample: with destinations "./b/w" and "a/b/x" (the latter
relative, not beginning with "."), the directory table is
["/b/", "a/b/"] and the lookup for "a/b/x" SUCCEEDS (index 0, directory
"/b/"), refuting the claim that only destinations beginning with "." can
ever match. -/
theorem c10_counterexample :
    computeDirIndex [97, 47, 98, 47, 120]
        (builder_directories [[46, 47, 98, 47, 119], [97, 47, 98, 47, 120]])
      = some 0 ∧
    (builder_directories [[46, 47, 98, 47, 119], [97, 47, 98, 47, 120]])[0]?
      = some [47, 98, 47] ∧
    pathStartsWithDot [97, 47, 98, 47, 120] = false := by decide

theorem c10_absolute_dest_lookup_witness :
    (∀ d ∈ [[47, 101, 116, 99, 47, 102]], wfDest d) ∧
    (∀ s ∈ ([[101, 116, 99]] : List (List Nat)) ++ [[102]], wfSeg s) ∧
    ([[101, 116, 99]] : List (List Nat)) ≠ [] ∧
    renderSegs ([[101, 116, 99]] ++ [[102]]) ∈ [[47, 101, 116, 99, 47, 102]] ∧
    (renderSegs [[101, 116, 99]] ++ [47]
        ∈ builder_directories [[47, 101, 116, 99, 47, 102]] ∧
      computeDirIndex (renderSegs ([[101, 116, 99]] ++ [[102]]))
        (builder_directories [[47, 101, 116, 99, 47, 102]]) = none) := by
  have hall : ∀ d ∈ [[47, 101, 116, 99, 47, 102]], wfDest d := by
    intro d hd
    simp only [List.mem_singleton] at hd
    subst hd
    exact ⟨[[101, 116, 99]], [102], Or.inr (by decide), by decide⟩
  exact ⟨hall, by decide, by decide, by decide,
    c10_absolute_dest_lookup [[47, 101, 116, 99, 47, 102]] [[101, 116, 99]]
      [102] hall (by decide) (by decide) (by decide)⟩
